import Mathlib

/-!
Verification of the srfpython parameterization layer
(`srfpython/HerrMet/parameterizers.py`) and of the distributed forward
operator (`srfpython/maupasacq/get_G.py`).

Numeric arrays are embedded as `List ℚ` (exact arithmetic standing for the
numpy float arrays of the source).  The numpy operations used by the source
(boolean masking, fancy assignment, slicing, concatenation, element-wise
arithmetic) are embedded as explicit list functions below.
-/

namespace Srf

/-- numpy boolean indexing `xs[bs]`: keep the entries of `xs` at the
positions where `bs` is `true`. -/
def maskSel {α : Type} : List α → List Bool → List α
  | x :: xs, b :: bs => if b then x :: maskSel xs bs else maskSel xs bs
  | _, _ => []

/-- numpy fancy assignment `M = ds.copy(); M[bs] = vs`: replace the entries
of `ds` at the `true` positions of `bs` by the successive entries of `vs`. -/
def scatter : List ℚ → List Bool → List ℚ → List ℚ
  | d :: ds, b :: bs, vs =>
      if b then vs.headD d :: scatter ds bs vs.tail
      else d :: scatter ds bs vs
  | ds, _, _ => ds

/-! ### The parameterizer data model (`parameterizers.py`) -/

/-- The five concrete parameterizer variants (the TYPE tags of the
parameter file). -/
inductive PType
  | mZVSPRRH
  | mZVSVPRH
  | mZVSPRzRHvp
  | mZVSPRzRHz
  | mZVSVPvsRHvp
  deriving DecidableEq

/-- The TYPE tag string of each variant. -/
def PType.tag : PType → String
  | .mZVSPRRH => "mZVSPRRH"
  | .mZVSVPRH => "mZVSVPRH"
  | .mZVSPRzRHvp => "mZVSPRzRHvp"
  | .mZVSPRzRHz => "mZVSPRzRHz"
  | .mZVSVPvsRHvp => "mZVSVPvsRHvp"

/-- A constructed parameterizer: the variant tag, NLAYER, the VINF/VSUP
columns of the parameter file, and the deserialized Relations (identity
when the variant does not use them).  A `Relation` applied to an array
evaluates element-wise, so it is embedded as a scalar function `ℚ → ℚ`. -/
structure Parameterizer where
  ptype : PType
  NLAYER : ℕ
  VINF : List ℚ
  VSUP : List ℚ
  PRz : ℚ → ℚ := id
  RHvp : ℚ → ℚ := id
  RHz : ℚ → ℚ := id
  VPvs : ℚ → ℚ := id

namespace Parameterizer

/-- `A.data['VINF'] < A.data['VSUP']` : the free (not locked) mask. -/
def IDXNOTLOCK (p : Parameterizer) : List Bool :=
  List.zipWith (fun a b => decide (a < b)) p.VINF p.VSUP

/-- `0.5 * (VINF + VSUP)` : values used for the locked entries. -/
def MDEFAULT (p : Parameterizer) : List ℚ :=
  List.zipWith (fun a b => (a + b) / 2) p.VINF p.VSUP

/-- `MDEFAULT[IDXNOTLOCK]` : the mean model, masked to the free entries. -/
def MMEAN (p : Parameterizer) : List ℚ := maskSel p.MDEFAULT p.IDXNOTLOCK

/-- `VINF[IDXNOTLOCK]` : lower bounds of the free entries. -/
def MINF (p : Parameterizer) : List ℚ := maskSel p.VINF p.IDXNOTLOCK

/-- `VSUP[IDXNOTLOCK]` : upper bounds of the free entries. -/
def MSUP (p : Parameterizer) : List ℚ := maskSel p.VSUP p.IDXNOTLOCK

/-- `0.5 * (VSUP - VINF)[IDXNOTLOCK]` : proposal half-ranges. -/
def MSTD (p : Parameterizer) : List ℚ :=
  maskSel (List.zipWith (fun a b => (b - a) / 2) p.VINF p.VSUP) p.IDXNOTLOCK

/-- Frechet offsets (attributes set in `Parameterizer.__init__`). -/
def dz : ℚ := 1 / 1000
def dvp : ℚ := 1 / 100
def dvs : ℚ := 1 / 100
def dpr : ℚ := 1 / 100
def drh : ℚ := 1 / 100

/-- Number of candidate parameter rows of each variant
(`-Z1..-Z(n-1)` then the per-layer physical rows). -/
def nrows (pt : PType) (n : ℕ) : ℕ :=
  match pt with
  | .mZVSPRRH | .mZVSVPRH => 4 * n - 1
  | _ => 2 * n - 1

/-- The full (unmasked) list of candidate parameter names, for each
variant in the order of its parameter blocks. -/
def keysAll (pt : PType) (n : ℕ) : List String :=
  let zk := (List.range (n - 1)).map (fun i => "-Z" ++ toString (i + 1))
  let vsk := (List.range n).map (fun i => "VS" ++ toString i)
  match pt with
  | .mZVSPRRH =>
      zk ++ vsk ++ (List.range n).map (fun i => "PR" ++ toString i)
         ++ (List.range n).map (fun i => "RH" ++ toString i)
  | .mZVSVPRH =>
      zk ++ vsk ++ (List.range n).map (fun i => "VP" ++ toString i)
         ++ (List.range n).map (fun i => "RH" ++ toString i)
  | _ => zk ++ vsk

/-- `keys()` : one name per free parameter (masked by IDXNOTLOCK). -/
def keys (p : Parameterizer) : List String :=
  maskSel (keysAll p.ptype p.NLAYER) p.IDXNOTLOCK

/-- `frechet_deltas()` : the per-parameter finite difference offsets as the
source computes them (note: the source does NOT apply the IDXNOTLOCK
mask here). -/
def frechet_deltas (p : Parameterizer) : List ℚ :=
  match p.ptype with
  | .mZVSPRRH =>
      List.replicate (p.NLAYER - 1) dz ++ List.replicate p.NLAYER dvs
        ++ List.replicate p.NLAYER dpr ++ List.replicate p.NLAYER drh
  | .mZVSVPRH =>
      List.replicate (p.NLAYER - 1) dz ++ List.replicate p.NLAYER dvs
        ++ List.replicate p.NLAYER dvp ++ List.replicate p.NLAYER drh
  | _ => List.replicate (p.NLAYER - 1) dz ++ List.replicate p.NLAYER dvs

/-- The full (unmasked) candidate vector concatenated by each variant's
`__call__` before the boolean mask is applied:
`np.concatenate((-1.0 * ZTOP[1:], VS, ...))`. -/
def candidates (pt : PType) (ZTOP VP VS RH : List ℚ) : List ℚ :=
  match pt with
  | .mZVSPRRH =>
      (ZTOP.drop 1).map (fun z => -z) ++ VS
        ++ List.zipWith (fun a b => a / b) VP VS ++ RH
  | .mZVSVPRH => (ZTOP.drop 1).map (fun z => -z) ++ VS ++ VP ++ RH
  | _ => (ZTOP.drop 1).map (fun z => -z) ++ VS

/-- `__call__(ZTOP, VP, VS, RH)` : the forward map producing the masked
parameter array m. -/
def call (p : Parameterizer) (ZTOP VP VS RH : List ℚ) : List ℚ :=
  maskSel (candidates p.ptype ZTOP VP VS RH) p.IDXNOTLOCK

end Parameterizer

/-! ### Parameter-file validation (`check_parameter_file` and construction) -/

/-- A read parameter file (`AsciiFile`): the metadata entries occurring in
the sources (absent keys are `none`) and the KEY/VINF/VSUP data columns.
The Relation metadata are the deserialized scalar laws. -/
structure AsciiFile where
  NLAYER : Option ℕ
  TYPE : Option String
  KEY : List String
  VINF : List ℚ
  VSUP : List ℚ
  PRzF : Option (ℚ → ℚ) := none
  RHvpF : Option (ℚ → ℚ) := none
  RHzF : Option (ℚ → ℚ) := none
  VPvsF : Option (ℚ → ℚ) := none

/-- `check_parameter_file(A)` : the four validation checks run by
`Parameterizer.__init__` before any variant-specific construction. -/
def check_parameter_file (A : AsciiFile) : Except String Unit :=
  if A.NLAYER = none then .error "NLAYER not found in file metadata"
  else if A.TYPE = none then .error "TYPE not found in file metadata"
  else if A.KEY.dedup.length ≠ A.KEY.length then
    .error "there are repeated entries in column KEYS"
  else if (List.zipWith (fun a b => decide (b < a)) A.VINF A.VSUP).any id then
    .error "VSUP cannot be lower than VINF"
  else .ok ()

/-- The variant-specific part of each subclass `__init__` : the TYPE-tag
assertion, the Relation metadata lookups, and (for variant E) the explicit
Relation sanity checks of the source; on success the Parameterizer
attributes are set. -/
def buildVariant (pt : PType) (A : AsciiFile) : Except String Parameterizer :=
  if A.TYPE ≠ some pt.tag then .error "AssertionError: TYPE mismatch"
  else
    match pt with
    | .mZVSPRRH => .ok ⟨pt, A.NLAYER.getD 0, A.VINF, A.VSUP, id, id, id, id⟩
    | .mZVSVPRH => .ok ⟨pt, A.NLAYER.getD 0, A.VINF, A.VSUP, id, id, id, id⟩
    | .mZVSPRzRHvp =>
        match A.PRzF, A.RHvpF with
        | some f, some g => .ok ⟨pt, A.NLAYER.getD 0, A.VINF, A.VSUP, f, g, id, id⟩
        | _, _ => .error "KeyError: Relation metadata not found"
    | .mZVSPRzRHz =>
        match A.PRzF, A.RHzF with
        | some f, some g => .ok ⟨pt, A.NLAYER.getD 0, A.VINF, A.VSUP, f, id, g, id⟩
        | _, _ => .error "KeyError: Relation metadata not found"
    | .mZVSVPvsRHvp =>
        match A.VPvsF, A.RHvpF with
        | some f, some g =>
            if ¬ (0 < f 1) then .error "could not execute VP=f(VS)"
            else if ¬ (1 ≤ g 1) then .error "could not execute RH=f(VP)"
            else .ok ⟨pt, A.NLAYER.getD 0, A.VINF, A.VSUP, id, g, id, f⟩
        | _, _ => .error "KeyError: Relation metadata not found"

/-- Constructing a variant Parameterizer from a parameter file: the shared
validation (`check_parameter_file`, run first by `Parameterizer.__init__`)
followed by the variant-specific construction. -/
def mkParameterizer (pt : PType) (A : AsciiFile) : Except String Parameterizer :=
  (check_parameter_file A).bind fun _ => buildVariant pt A

/-- A full depth model: per-layer top depth, velocities, density. -/
structure DepthModel where
  ZTOP : List ℚ
  VP : List ℚ
  VS : List ℚ
  RH : List ℚ
  deriving DecidableEq

namespace Parameterizer

/-- `ZMID = concatenate((0.5*(ZTOP[1:]+ZTOP[:-1]), [1.5*ZTOP[-1]]))` :
layer midpoints plus an extrapolated half-space point. -/
def zmid (Z : List ℚ) : List ℚ :=
  List.zipWith (fun a b => (a + b) / 2) (Z.drop 1) Z ++ [3 / 2 * Z.getLastD 0]

/-- `inv(m)` : rebuild the full vector M from MDEFAULT and m, decode the
depths, then reconstruct VP/VS/RH per the variant's physical rule. -/
def inv (p : Parameterizer) (m : List ℚ) : DepthModel :=
  let M := scatter p.MDEFAULT p.IDXNOTLOCK m
  let n := p.NLAYER
  let ZTOP : List ℚ := 0 :: (M.take (n - 1)).map (fun z => -z)
  let VS := (M.drop (n - 1)).take n
  match p.ptype with
  | .mZVSPRRH =>
      let PR := (M.drop (2 * n - 1)).take n
      let RH := (M.drop (3 * n - 1)).take n
      ⟨ZTOP, List.zipWith (fun a b => a * b) PR VS, VS, RH⟩
  | .mZVSVPRH =>
      let VP := (M.drop (2 * n - 1)).take n
      let RH := (M.drop (3 * n - 1)).take n
      ⟨ZTOP, VP, VS, RH⟩
  | .mZVSPRzRHvp =>
      let VP := List.zipWith (fun a b => a * b) VS ((zmid ZTOP).map p.PRz)
      ⟨ZTOP, VP, VS, VP.map p.RHvp⟩
  | .mZVSPRzRHz =>
      let VP := List.zipWith (fun a b => a * b) VS ((zmid ZTOP).map p.PRz)
      ⟨ZTOP, VP, VS, (zmid ZTOP).map p.RHz⟩
  | .mZVSVPvsRHvp =>
      let VP := VS.map p.VPvs
      ⟨ZTOP, VP, VS, VP.map p.RHvp⟩

end Parameterizer

/-! ### Boundaries (envelope profiles) -/

/-- Modelled from the spec: `depthmodel1D.interp(z, interpmethod="stairs")`
lives in `srfpython.depthdisp.depthmodels`, which is not part of the
sources; per the spec it is the piecewise-constant ("stairs")
reinterpolation of a layered profile.  Layer `j` spans
`[ZTOP[j], ZTOP[j+1])` (the last layer is the half space), so the value at
depth `x` is the value of the deepest layer whose top is at or above `x`. -/
def stairsVal (Z V : List ℚ) (x : ℚ) : ℚ :=
  V.getD (Z.countP (fun zt => decide (zt ≤ x)) - 1) 0

/-- Reinterpolate the profile `(Z, V)` onto the depth axis `z`. -/
def interpStairs (Z V z : List ℚ) : List ℚ := z.map (stairsVal Z V)

/-- `np.sort(np.unique(x))` : sorted distinct values. -/
def sortedUnique (x : List ℚ) : List ℚ :=
  x.dedup.insertionSort (fun a b => a ≤ b)

/-- `f(Zinf, Zsup, V, np.min)` of the source: reinterpolate `V` from both
depth axes onto `z` and take the pointwise minimum. -/
def envMin (Zinf Zsup V z : List ℚ) : List ℚ :=
  List.zipWith min (interpStairs Zinf V z) (interpStairs Zsup V z)

/-- `f(Zinf, Zsup, V, np.max)` of the source: pointwise maximum. -/
def envMax (Zinf Zsup V z : List ℚ) : List ℚ :=
  List.zipWith max (interpStairs Zinf V z) (interpStairs Zsup V z)

/-- The eight envelope profiles returned by `boundaries()`, all carried by
the common merged depth axis `z`. -/
structure Bounds where
  z : List ℚ
  vplow : List ℚ
  vphgh : List ℚ
  vslow : List ℚ
  vshgh : List ℚ
  rhlow : List ℚ
  rhhgh : List ℚ
  prlow : List ℚ
  prhgh : List ℚ
  deriving DecidableEq

namespace Parameterizer

/-- The default `Parameterizer.boundaries` of the base class (also the
verbatim body of `Parameterizer_mZVSVPRH.boundaries`). -/
def boundariesDefault (p : Parameterizer) : Bounds :=
  let dinf := p.inv p.MINF
  let dsup := p.inv p.MSUP
  let Ztopsup := dinf.ZTOP
  let Ztopinf := dsup.ZTOP
  let z := sortedUnique (Ztopinf ++ Ztopsup)
  let vplow := envMin Ztopinf Ztopsup dinf.VP z
  let vphgh := envMax Ztopinf Ztopsup dsup.VP z
  let vslow := envMin Ztopinf Ztopsup dinf.VS z
  let vshgh := envMax Ztopinf Ztopsup dsup.VS z
  let rhlow := envMin Ztopinf Ztopsup dinf.RH z
  let rhhgh := envMax Ztopinf Ztopsup dsup.RH z
  let prlow := List.zipWith (fun a b => a / b) vphgh vslow
  let prhgh := List.zipWith (fun a b => a / b) vplow vshgh
  ⟨z, vplow, vphgh, vslow, vshgh, rhlow, rhhgh, prlow, prhgh⟩

/-- `Parameterizer_mZVSPRRH.boundaries` : the ratio profiles are taken
from `VP/VS` of the two bounding models and the VP envelopes recombined
as `pr * vs`. -/
def boundariesA (p : Parameterizer) : Bounds :=
  let dinf := p.inv p.MINF
  let dsup := p.inv p.MSUP
  let Ztopsup := dinf.ZTOP
  let Ztopinf := dsup.ZTOP
  let z := sortedUnique (Ztopinf ++ Ztopsup)
  let PRlow := List.zipWith (fun a b => a / b) dinf.VP dinf.VS
  let PRhgh := List.zipWith (fun a b => a / b) dsup.VP dsup.VS
  let prlow := envMin Ztopinf Ztopsup PRlow z
  let prhgh := envMax Ztopinf Ztopsup PRhgh z
  let vslow := envMin Ztopinf Ztopsup dinf.VS z
  let vshgh := envMax Ztopinf Ztopsup dsup.VS z
  let rhlow := envMin Ztopinf Ztopsup dinf.RH z
  let rhhgh := envMax Ztopinf Ztopsup dsup.RH z
  let vplow := List.zipWith (fun a b => a * b) prlow vslow
  let vphgh := List.zipWith (fun a b => a * b) prhgh vshgh
  ⟨z, vplow, vphgh, vslow, vshgh, rhlow, rhhgh, prlow, prhgh⟩

/-- `Parameterizer_mZVSVPvsRHvp.boundaries` : the VS envelopes are built
first and the VPvs / RHvp relations are applied to each envelope. -/
def boundariesE (p : Parameterizer) : Bounds :=
  let dinf := p.inv p.MINF
  let dsup := p.inv p.MSUP
  let Ztopsup := dinf.ZTOP
  let Ztopinf := dsup.ZTOP
  let z := sortedUnique (Ztopinf ++ Ztopsup)
  let vslow := envMin Ztopinf Ztopsup dinf.VS z
  let vshgh := envMax Ztopinf Ztopsup dsup.VS z
  let vplow := vslow.map p.VPvs
  let vphgh := vshgh.map p.VPvs
  let prlow := List.zipWith (fun a b => a / b) vplow vslow
  let prhgh := List.zipWith (fun a b => a / b) vphgh vshgh
  let rhlow := vplow.map p.RHvp
  let rhhgh := vphgh.map p.RHvp
  ⟨z, vplow, vphgh, vslow, vshgh, rhlow, rhhgh, prlow, prhgh⟩

/-- `boundaries()` of each variant, together with the list of diagnostic
messages printed while computing it (variants C and D print a fallback
notice and delegate to the base-class algorithm). -/
def boundaries (p : Parameterizer) : List String × Bounds :=
  match p.ptype with
  | .mZVSPRRH => ([], boundariesA p)
  | .mZVSVPRH => ([], boundariesDefault p)
  | .mZVSPRzRHvp =>
      (["boundaries method not implemented for Parameterizer_mZVSPRzRHvp, using default one"],
        boundariesDefault p)
  | .mZVSPRzRHz =>
      (["boundaries method not implemented for Parameterizer_mZVSPRzRHz, using default one"],
        boundariesDefault p)
  | .mZVSVPvsRHvp => ([], boundariesE p)

end Parameterizer

/-! ### The distributed forward operator (`maupasacq/get_G.py`) -/

/-- `M.reshape((ny, nx, nz))[iy, jx, :]` for node `n = iy*nx + jx` : the
row-major slice of the flat global model vector. -/
def nodeSlice (nz : ℕ) (M : List ℚ) (n : ℕ) : List ℚ :=
  (M.drop (n * nz)).take nz

namespace ForwardOperator

/-- `ForwardOperator.__call__` : per-node theories `th` (each one the
external physics solver wrapped by Theory, modelled from the spec as an
abstract data function of the node's model slice) are evaluated over the
double loop `for iy: for jx:` and the data vectors concatenated in node
order (the dispatch utility is order-preserving per the spec). -/
def call (ny nx nz : ℕ) (th : ℕ → List ℚ → List ℚ) (M : List ℚ) : List ℚ :=
  (List.range ny).flatMap fun iy =>
    (List.range nx).flatMap fun jx =>
      th (iy * nx + jx) (nodeSlice nz M (iy * nx + jx))

/-- The sparse coordinate triples `(row, col, value)` accumulated by
`ForwardOperator.frechet_derivatives` : for node `n`, the meshgrid of
`np.arange(nz)` and `np.arange(nper)` paired with the flattened local
Jacobian `fd n` (modelled from the spec as an abstract per-node flat
array of `nper * nz` values, row-major). -/
def frechetTriples (ny nx nz nper : ℕ) (fd : ℕ → List ℚ) :
    List (ℕ × ℕ × ℚ) :=
  (List.range (ny * nx)).flatMap fun n =>
    (List.range nper).flatMap fun r =>
      (List.range nz).map fun c =>
        (n * nper + r, n * nz + c, (fd n).getD (r * nz + c) 0)

/-- Entry `(r, c)` of the `scipy.sparse.csc_matrix` built from coordinate
triples: duplicate coordinates are summed. -/
def assemble (ts : List (ℕ × ℕ × ℚ)) (r c : ℕ) : ℚ :=
  ((ts.filter fun t => t.1 == r && t.2.1 == c).map fun t => t.2.2).sum

end ForwardOperator

/-! ### Lemmas about the list primitives -/

theorem length_scatter (ds : List ℚ) (bs : List Bool) (vs : List ℚ) :
    (scatter ds bs vs).length = ds.length := by
  induction ds generalizing bs vs with
  | nil => cases bs <;> rfl
  | cons d ds ih =>
      cases bs with
      | nil => rfl
      | cons b bs =>
          by_cases hb : b = true <;> simp [scatter, hb, ih]

theorem length_maskSel_le {α : Type} (xs : List α) (bs : List Bool) :
    (maskSel xs bs).length ≤ xs.length := by
  induction xs generalizing bs with
  | nil => cases bs <;> simp [maskSel]
  | cons x xs ih =>
      cases bs with
      | nil => simp [maskSel]
      | cons b bs =>
          by_cases hb : b = true
          · simpa [maskSel, hb] using ih bs
          · simp only [maskSel, hb]
            exact le_trans (ih bs) (Nat.le_succ _)

theorem length_maskSel {α : Type} (xs : List α) (bs : List Bool)
    (h : xs.length = bs.length) :
    (maskSel xs bs).length = bs.count true := by
  induction xs generalizing bs with
  | nil =>
      cases bs with
      | nil => rfl
      | cons b bs => simp at h
  | cons x xs ih =>
      cases bs with
      | nil => simp at h
      | cons b bs =>
          simp only [List.length_cons, Nat.succ_inj] at h
          by_cases hb : b = true
          · simp [maskSel, hb, List.count_cons, ih bs h]
          · simp [maskSel, hb, List.count_cons, ih bs h]

/-- Reading back the scattered values through the mask recovers them:
`(M = ds.copy(); M[bs] = vs; M[bs]) == vs` whenever `vs` has exactly one
entry per `true` position of the mask. -/
theorem maskSel_scatter (ds : List ℚ) (bs : List Bool) (vs : List ℚ)
    (hlen : ds.length = bs.length) (hcnt : bs.count true = vs.length) :
    maskSel (scatter ds bs vs) bs = vs := by
  induction ds generalizing bs vs with
  | nil =>
      cases bs with
      | nil =>
          cases vs with
          | nil => rfl
          | cons v vs => simp at hcnt
      | cons b bs => simp at hlen
  | cons d ds ih =>
      cases bs with
      | nil => simp at hlen
      | cons b bs =>
          have hlen' : ds.length = bs.length := by simpa using hlen
          cases b with
          | false =>
              have hcnt' : bs.count true = vs.length := by
                simpa [List.count_cons] using hcnt
              simpa [scatter, maskSel] using ih bs vs hlen' hcnt'
          | true =>
              cases vs with
              | nil => simp [List.count_cons] at hcnt
              | cons v vs =>
                  have hcnt' : bs.count true = vs.length := by
                    simp [List.count_cons] at hcnt
                    omega
                  simpa [scatter, maskSel] using ih bs vs hlen' hcnt'

/-- A locked position (mask `false`) never contributes to the masked
output: the output is unchanged when the entry at that position is
replaced by anything. -/
theorem maskSel_set_of_false {α : Type} (xs : List α) (bs : List Bool)
    (i : ℕ) (hi : bs.getD i true = false) (v : α) :
    maskSel (xs.set i v) bs = maskSel xs bs := by
  induction xs generalizing bs i with
  | nil => simp
  | cons x xs ih =>
      cases bs with
      | nil => cases i <;> simp [maskSel] at hi ⊢
      | cons b bs =>
          cases i with
          | zero =>
              simp only [List.getD_cons_zero] at hi
              subst hi
              simp [maskSel, List.set]
          | succ i =>
              simp only [List.getD_cons_succ] at hi
              by_cases hb : b = true <;>
                simp [maskSel, List.set, hb, ih bs i hi]

/-- Scattering leaves a locked position (mask `false`) at its default. -/
theorem scatter_getD_of_false (ds : List ℚ) (bs : List Bool) (vs : List ℚ)
    (i : ℕ) (hi : bs.getD i true = false) :
    (scatter ds bs vs).getD i 0 = ds.getD i 0 := by
  induction ds generalizing bs vs i with
  | nil => cases bs <;> rfl
  | cons d ds ih =>
      cases bs with
      | nil => rfl
      | cons b bs =>
          cases i with
          | zero =>
              simp only [List.getD_cons_zero] at hi
              subst hi
              simp [scatter]
          | succ i =>
              simp only [List.getD_cons_succ] at hi
              cases b with
              | true =>
                  simpa [scatter, List.getD_cons_succ] using ih bs vs.tail i hi
              | false =>
                  simpa [scatter, List.getD_cons_succ] using ih bs vs i hi

/-! ### Claim C10: the forward map of variants C, D, E ignores VP and RH -/

/-- C10: for the variants mZVSPRzRHvp, mZVSPRzRHz and mZVSVPvsRHvp, the
forward map `__call__` is independent of the VP and RH arguments: its
output depends only on ZTOP, VS and the lock mask. -/
theorem call_ignores_vp_rh_for_relation_variants
    (n : ℕ) (vinf vsup : List ℚ) (f g h k : ℚ → ℚ)
    (ZTOP VP VS RH VP2 RH2 : List ℚ) :
    (Parameterizer.call ⟨.mZVSPRzRHvp, n, vinf, vsup, f, g, h, k⟩ ZTOP VP VS RH
      = Parameterizer.call ⟨.mZVSPRzRHvp, n, vinf, vsup, f, g, h, k⟩ ZTOP VP2 VS RH2)
  ∧ (Parameterizer.call ⟨.mZVSPRzRHz, n, vinf, vsup, f, g, h, k⟩ ZTOP VP VS RH
      = Parameterizer.call ⟨.mZVSPRzRHz, n, vinf, vsup, f, g, h, k⟩ ZTOP VP2 VS RH2)
  ∧ (Parameterizer.call ⟨.mZVSVPvsRHvp, n, vinf, vsup, f, g, h, k⟩ ZTOP VP VS RH
      = Parameterizer.call ⟨.mZVSVPvsRHvp, n, vinf, vsup, f, g, h, k⟩ ZTOP VP2 VS RH2) :=
  ⟨rfl, rfl, rfl⟩

/-! ### Claim C9: boundaries fallback for C and D, Relation propagation for E -/

/-- C9: `boundaries()` of the variants mZVSPRzRHvp and mZVSPRzRHz emits a
diagnostic message and returns exactly the generic base-class envelope,
while the variant mZVSVPvsRHvp emits no message and propagates the
Relations through the envelope: its VP envelopes are VPvs applied to the
corresponding VS envelopes and its RH envelopes are RHvp applied to the
corresponding VP envelopes. -/
theorem boundaries_fallback_and_relation_propagation
    (n : ℕ) (vinf vsup : List ℚ) (f g h k : ℚ → ℚ) :
    (Parameterizer.boundaries ⟨.mZVSPRzRHvp, n, vinf, vsup, f, g, h, k⟩
      = (["boundaries method not implemented for Parameterizer_mZVSPRzRHvp, using default one"],
         Parameterizer.boundariesDefault ⟨.mZVSPRzRHvp, n, vinf, vsup, f, g, h, k⟩))
  ∧ (Parameterizer.boundaries ⟨.mZVSPRzRHz, n, vinf, vsup, f, g, h, k⟩
      = (["boundaries method not implemented for Parameterizer_mZVSPRzRHz, using default one"],
         Parameterizer.boundariesDefault ⟨.mZVSPRzRHz, n, vinf, vsup, f, g, h, k⟩))
  ∧ ((Parameterizer.boundaries ⟨.mZVSVPvsRHvp, n, vinf, vsup, f, g, h, k⟩).1 = [])
  ∧ ((Parameterizer.boundaries ⟨.mZVSVPvsRHvp, n, vinf, vsup, f, g, h, k⟩).2.vplow
      = (Parameterizer.boundaries ⟨.mZVSVPvsRHvp, n, vinf, vsup, f, g, h, k⟩).2.vslow.map k)
  ∧ ((Parameterizer.boundaries ⟨.mZVSVPvsRHvp, n, vinf, vsup, f, g, h, k⟩).2.vphgh
      = (Parameterizer.boundaries ⟨.mZVSVPvsRHvp, n, vinf, vsup, f, g, h, k⟩).2.vshgh.map k)
  ∧ ((Parameterizer.boundaries ⟨.mZVSVPvsRHvp, n, vinf, vsup, f, g, h, k⟩).2.rhlow
      = (Parameterizer.boundaries ⟨.mZVSVPvsRHvp, n, vinf, vsup, f, g, h, k⟩).2.vplow.map g)
  ∧ ((Parameterizer.boundaries ⟨.mZVSVPvsRHvp, n, vinf, vsup, f, g, h, k⟩).2.rhhgh
      = (Parameterizer.boundaries ⟨.mZVSVPvsRHvp, n, vinf, vsup, f, g, h, k⟩).2.vphgh.map g) :=
  ⟨rfl, rfl, rfl, rfl, rfl, rfl, rfl⟩

/-! ### Claim C7: the concrete 2-layer variant-A scenario

The parameter file rows (in the canonical order assumed by the positional
slicing of `inv`): `-Z1` in [-1.5, -0.5] (interface depth 0.5..1.5 km,
free), `VS0`, `VS1` in [1, 2] (free), `PR0`, `PR1` locked at 1.8,
`RH0`, `RH1` locked at 2.2. -/

/-- C7 counterexample: in the claimed scenario `inverse(MMEAN)` does NOT
return VP = [3.6, 3.6]; the locked ratio is 1.8 and the mean Vs is 1.5,
so VP = 1.8 * 1.5 = 2.7 in both layers. -/
theorem scenario_vp_is_not_claimed_value :
    (Parameterizer.inv
        ⟨.mZVSPRRH, 2, [-3/2, 1, 1, 9/5, 9/5, 11/5, 11/5],
          [-1/2, 2, 2, 9/5, 9/5, 11/5, 11/5], id, id, id, id⟩
        (Parameterizer.MMEAN
          ⟨.mZVSPRRH, 2, [-3/2, 1, 1, 9/5, 9/5, 11/5, 11/5],
            [-1/2, 2, 2, 9/5, 9/5, 11/5, 11/5], id, id, id, id⟩)).VP
      ≠ [18/5, 18/5] := by with_unfolding_all decide

/-- C7 (amended): the scenario yields exactly the 3 free parameters
`-Z1`, `VS0`, `VS1`, and `inverse(MMEAN)` returns ZTOP = [0, 1],
VP = [2.7, 2.7], VS = [1.5, 1.5], RH = [2.2, 2.2]. -/
theorem scenario_keys_and_mean_model :
    Parameterizer.keys
        ⟨.mZVSPRRH, 2, [-3/2, 1, 1, 9/5, 9/5, 11/5, 11/5],
          [-1/2, 2, 2, 9/5, 9/5, 11/5, 11/5], id, id, id, id⟩
      = ["-Z1", "VS0", "VS1"]
  ∧ Parameterizer.inv
        ⟨.mZVSPRRH, 2, [-3/2, 1, 1, 9/5, 9/5, 11/5, 11/5],
          [-1/2, 2, 2, 9/5, 9/5, 11/5, 11/5], id, id, id, id⟩
        (Parameterizer.MMEAN
          ⟨.mZVSPRRH, 2, [-3/2, 1, 1, 9/5, 9/5, 11/5, 11/5],
            [-1/2, 2, 2, 9/5, 9/5, 11/5, 11/5], id, id, id, id⟩)
      = ⟨[0, 1], [27/10, 27/10], [3/2, 3/2], [11/5, 11/5]⟩ := by
  constructor
  · with_unfolding_all decide
  · with_unfolding_all decide

/-! ### Claim C6: lengths of keys(), frechet_deltas() and MMEAN -/

/-- C6: evaluating the source at the C7 scenario (4 of the 7 candidate
rows locked): `keys()` and `MMEAN` have one entry per free parameter (3),
but `frechet_deltas()` returns one offset per candidate row
(4 * NLAYER - 1 = 7) because the source never applies the IDXNOTLOCK
mask in `frechet_deltas`, contradicting its own docstring
(`dg/dm = (g(m + deltam) - g(m)) / deltam` with `m` the masked array). -/
theorem frechet_deltas_length_mismatch :
    (Parameterizer.frechet_deltas
        ⟨.mZVSPRRH, 2, [-3/2, 1, 1, 9/5, 9/5, 11/5, 11/5],
          [-1/2, 2, 2, 9/5, 9/5, 11/5, 11/5], id, id, id, id⟩).length = 7
  ∧ (Parameterizer.keys
        ⟨.mZVSPRRH, 2, [-3/2, 1, 1, 9/5, 9/5, 11/5, 11/5],
          [-1/2, 2, 2, 9/5, 9/5, 11/5, 11/5], id, id, id, id⟩).length = 3
  ∧ (Parameterizer.MMEAN
        ⟨.mZVSPRRH, 2, [-3/2, 1, 1, 9/5, 9/5, 11/5, 11/5],
          [-1/2, 2, 2, 9/5, 9/5, 11/5, 11/5], id, id, id, id⟩).length = 3 := by
  refine ⟨by with_unfolding_all decide, by with_unfolding_all decide,
    by with_unfolding_all decide⟩

/-! ### Claim C8: parameter-file validation precedes construction -/

/-- C8: a parameter file missing NLAYER or TYPE, with duplicate KEY
entries, or with some VINF > VSUP makes `check_parameter_file` fail, and
the construction of any variant returns exactly that validation error:
the variant-specific construction never runs. -/
theorem invalid_file_fails_validation_before_construction
    (pt : PType) (A : AsciiFile)
    (hbad : A.NLAYER = none ∨ A.TYPE = none
      ∨ A.KEY.dedup.length ≠ A.KEY.length
      ∨ (List.zipWith (fun a b => decide (b < a)) A.VINF A.VSUP).any id = true) :
    ∃ e, check_parameter_file A = .error e ∧ mkParameterizer pt A = .error e := by
  have hchk : ∃ e, check_parameter_file A = .error e := by
    by_cases h1 : A.NLAYER = none
    · exact ⟨"NLAYER not found in file metadata", by simp [check_parameter_file, h1]⟩
    · by_cases h2 : A.TYPE = none
      · exact ⟨"TYPE not found in file metadata", by simp [check_parameter_file, h1, h2]⟩
      · by_cases h3 : A.KEY.dedup.length = A.KEY.length
        · have h4 : (List.zipWith (fun a b => decide (b < a)) A.VINF A.VSUP).any id
              = true := by tauto
          exact ⟨"VSUP cannot be lower than VINF",
            by simp [check_parameter_file, h1, h2, h3, h4]⟩
        · exact ⟨"there are repeated entries in column KEYS",
            by simp [check_parameter_file, h1, h2, h3]⟩
  obtain ⟨e, he⟩ := hchk
  exact ⟨e, he, by simp [mkParameterizer, he, Except.bind]⟩

/-- C8 witness: a concrete file missing its NLAYER metadata is rejected by
the shared validation and the construction of variant A fails with the
same error. -/
theorem invalid_file_witness :
    ∃ e, check_parameter_file ⟨none, some "mZVSPRRH", ["VS0"], [1], [2], none, none, none, none⟩
          = .error e
      ∧ mkParameterizer .mZVSPRRH
          ⟨none, some "mZVSPRRH", ["VS0"], [1], [2], none, none, none, none⟩ = .error e :=
  invalid_file_fails_validation_before_construction .mZVSPRRH _ (Or.inl rfl)

/-! ### Claim C4: locked rows (VINF == VSUP) -/

theorem getD_zipWith {β : Type} (f : ℚ → ℚ → β) (xs ys : List ℚ) (i : ℕ)
    (d : β) (hx : i < xs.length) (hy : i < ys.length) :
    (List.zipWith f xs ys).getD i d = f (xs.getD i 0) (ys.getD i 0) := by
  induction xs generalizing ys i with
  | nil => simp at hx
  | cons x xs ih =>
      cases ys with
      | nil => simp at hy
      | cons y ys =>
          cases i with
          | zero => simp
          | succ i =>
              simp only [List.zipWith_cons_cons, List.getD_cons_succ]
              exact ih ys i (by simpa using hx) (by simpa using hy)

/-- C4: a parameter row whose VINF equals VSUP is masked out
(IDXNOTLOCK is false there), so it contributes no entry to the output of
`keys()` (the output is unchanged when that row's name is replaced by
anything) nor to the forward map's output (unchanged when that row's
candidate value is replaced by anything), and the full vector rebuilt by
`inverse(m)` carries exactly the value VINF (== VSUP) at that position for
every m. -/
theorem locked_row_never_inverted (p : Parameterizer) (i : ℕ)
    (hlen : p.VINF.length = p.VSUP.length)
    (hi : i < p.VINF.length)
    (hlock : p.VINF.getD i 0 = p.VSUP.getD i 0) :
    p.IDXNOTLOCK.getD i true = false
  ∧ (∀ v : String, p.keys
      = maskSel ((Parameterizer.keysAll p.ptype p.NLAYER).set i v) p.IDXNOTLOCK)
  ∧ (∀ ZTOP VP VS RH : List ℚ, ∀ v : ℚ, p.call ZTOP VP VS RH
      = maskSel ((Parameterizer.candidates p.ptype ZTOP VP VS RH).set i v) p.IDXNOTLOCK)
  ∧ (∀ m : List ℚ,
      (scatter p.MDEFAULT p.IDXNOTLOCK m).getD i 0 = p.VINF.getD i 0) := by
  have hidx : p.IDXNOTLOCK.getD i true = false := by
    rw [Parameterizer.IDXNOTLOCK,
      getD_zipWith (fun a b => decide (a < b)) p.VINF p.VSUP i true hi (hlen ▸ hi)]
    simp only [decide_eq_false_iff_not, not_lt]
    exact le_of_eq hlock.symm
  refine ⟨hidx, ?_, ?_, ?_⟩
  · intro v
    rw [Parameterizer.keys, maskSel_set_of_false _ _ i hidx v]
  · intro ZTOP VP VS RH v
    rw [Parameterizer.call, maskSel_set_of_false _ _ i hidx v]
  · intro m
    rw [scatter_getD_of_false _ _ m i hidx, Parameterizer.MDEFAULT,
      getD_zipWith (fun a b => (a + b) / 2) p.VINF p.VSUP i 0 hi (hlen ▸ hi),
      ← hlock]
    ring

/-- C4 witness: in the concrete C7 scenario the locked row `PR0`
(index 3, VINF = VSUP = 1.8) is masked out of keys() and of the forward
output, and `inverse` puts exactly 1.8 at its position in the rebuilt full
vector. -/
theorem locked_row_witness :
    (Parameterizer.IDXNOTLOCK
        ⟨.mZVSPRRH, 2, [-3/2, 1, 1, 9/5, 9/5, 11/5, 11/5],
          [-1/2, 2, 2, 9/5, 9/5, 11/5, 11/5], id, id, id, id⟩).getD 3 true = false
  ∧ Parameterizer.keys
        ⟨.mZVSPRRH, 2, [-3/2, 1, 1, 9/5, 9/5, 11/5, 11/5],
          [-1/2, 2, 2, 9/5, 9/5, 11/5, 11/5], id, id, id, id⟩
      = maskSel ((Parameterizer.keysAll .mZVSPRRH 2).set 3 "ANYTHING")
          (Parameterizer.IDXNOTLOCK
            ⟨.mZVSPRRH, 2, [-3/2, 1, 1, 9/5, 9/5, 11/5, 11/5],
              [-1/2, 2, 2, 9/5, 9/5, 11/5, 11/5], id, id, id, id⟩)
  ∧ (scatter
        (Parameterizer.MDEFAULT
          ⟨.mZVSPRRH, 2, [-3/2, 1, 1, 9/5, 9/5, 11/5, 11/5],
            [-1/2, 2, 2, 9/5, 9/5, 11/5, 11/5], id, id, id, id⟩)
        (Parameterizer.IDXNOTLOCK
          ⟨.mZVSPRRH, 2, [-3/2, 1, 1, 9/5, 9/5, 11/5, 11/5],
            [-1/2, 2, 2, 9/5, 9/5, 11/5, 11/5], id, id, id, id⟩)
        [-1, 3/2, 3/2]).getD 3 0
      = [(-3/2 : ℚ), 1, 1, 9/5, 9/5, 11/5, 11/5].getD 3 0 := by
  have T := locked_row_never_inverted
    ⟨.mZVSPRRH, 2, [-3/2, 1, 1, 9/5, 9/5, 11/5, 11/5],
      [-1/2, 2, 2, 9/5, 9/5, 11/5, 11/5], id, id, id, id⟩ 3
    (by with_unfolding_all decide) (by with_unfolding_all decide)
    (by with_unfolding_all decide)
  exact ⟨T.1, T.2.1 "ANYTHING", T.2.2.2 [-1, 3/2, 3/2]⟩

/-! ### Claims C2 and C3: the distributed forward operator -/

/-- The row-major double loop over (iy, jx) visits exactly the node
indices 0 .. ny*nx-1 in order. -/
theorem flatMap_range_mul {β : Type} (a b : ℕ) (g : ℕ → List β) :
    (List.range a).flatMap
        (fun i => (List.range b).flatMap fun j => g (i * b + j))
      = (List.range (a * b)).flatMap g := by
  induction a with
  | zero => simp
  | succ a ih =>
      rw [List.range_succ, List.flatMap_append, ih, Nat.succ_mul,
        List.range_add, List.flatMap_append]
      simp only [List.flatMap_cons, List.flatMap_nil, List.append_nil,
        List.flatMap_map]

theorem blockConcat_length (k nper : ℕ) (g : ℕ → List ℚ)
    (h : ∀ n, n < k → (g n).length = nper) :
    ((List.range k).flatMap g).length = k * nper := by
  induction k with
  | zero => simp
  | succ k ih =>
      rw [List.range_succ, List.flatMap_append, List.length_append,
        ih (fun n hn => h n (Nat.lt_succ_of_lt hn)), List.flatMap_cons,
        List.flatMap_nil, List.append_nil, h k (Nat.lt_succ_self k),
        Nat.succ_mul]

theorem blockConcat_slice (k nper : ℕ) (g : ℕ → List ℚ)
    (h : ∀ n, n < k → (g n).length = nper) (n : ℕ) (hn : n < k) :
    ((((List.range k).flatMap g).drop (n * nper)).take nper) = g n := by
  induction k with
  | zero => simp at hn
  | succ k ih =>
      have hlen : ((List.range k).flatMap g).length = k * nper :=
        blockConcat_length k nper g (fun m hm => h m (Nat.lt_succ_of_lt hm))
      rw [List.range_succ, List.flatMap_append, List.flatMap_cons,
        List.flatMap_nil, List.append_nil]
      rcases Nat.lt_or_ge n k with hnk | hnk
      · rw [List.drop_append_of_le_length, List.take_append_of_le_length]
        · exact ih (fun m hm => h m (Nat.lt_succ_of_lt hm)) hnk
        · rw [List.length_drop, hlen]
          have h2 : (n + 1) * nper ≤ k * nper :=
            Nat.mul_le_mul_right nper (Nat.succ_le_of_lt hnk)
          rw [Nat.succ_mul] at h2
          omega
        · rw [hlen]
          exact Nat.mul_le_mul_right nper (Nat.le_of_lt hnk)
      · have hnk' : n = k := Nat.le_antisymm (Nat.lt_succ_iff.mp hn) hnk
        subst hnk'
        rw [← hlen, List.drop_left, ← h n (Nat.lt_succ_self n),
          List.take_length]

/-- C2: `evaluate` (ForwardOperator.__call__) on a global model vector of
ny*nx*nz entries returns a data vector of length exactly ny*nx*nper whose
slice [n*nper, (n+1)*nper) is the data vector of node n, computed from the
model slice of grid cell (iy, jx) = (n div nx, n mod nx) (the per-node
Theory `th` returns, per the spec, one data value per period). -/
theorem evaluate_length_and_node_slices (ny nx nz nper : ℕ)
    (th : ℕ → List ℚ → List ℚ) (M : List ℚ)
    (_hM : M.length = ny * nx * nz)
    (hth : ∀ n, n < ny * nx → (th n (nodeSlice nz M n)).length = nper) :
    (ForwardOperator.call ny nx nz th M).length = ny * nx * nper
  ∧ ∀ n, n < ny * nx →
      ((ForwardOperator.call ny nx nz th M).drop (n * nper)).take nper
        = th n (nodeSlice nz M (n / nx * nx + n % nx)) := by
  have hrw : ForwardOperator.call ny nx nz th M
      = (List.range (ny * nx)).flatMap fun n => th n (nodeSlice nz M n) :=
    flatMap_range_mul ny nx fun n => th n (nodeSlice nz M n)
  constructor
  · rw [hrw]
    exact blockConcat_length (ny * nx) nper _ hth
  · intro n hn
    rw [hrw, Nat.div_add_mod' n nx]
    exact blockConcat_slice (ny * nx) nper _ hth n hn

/-- C2 witness: a 1 x 2 grid with nz = 2, nper = 3 and a concrete
per-node theory; the global data vector has length 6 and the second
node's slice is the theory output on the model slice of cell (0, 1). -/
theorem evaluate_witness :
    (ForwardOperator.call 1 2 2
        (fun n m => [(n : ℚ), m.headD 0, 7]) [10, 20, 30, 40]).length = 1 * 2 * 3
  ∧ ((ForwardOperator.call 1 2 2
        (fun n m => [(n : ℚ), m.headD 0, 7]) [10, 20, 30, 40]).drop (1 * 3)).take 3
      = (fun n m => [(n : ℚ), m.headD 0, 7]) 1
          (nodeSlice 2 [10, 20, 30, 40] (1 / 2 * 2 + 1 % 2)) := by
  have T := evaluate_length_and_node_slices 1 2 2 3
    (fun n m => [(n : ℚ), m.headD 0, 7]) [10, 20, 30, 40]
    (by with_unfolding_all decide) (by with_unfolding_all decide)
  exact ⟨T.1, T.2 1 (by decide)⟩

/-- Every coordinate triple accumulated by `frechet_derivatives` has the
form (n*nper + r, n*nz + c, _) for some node n < ny*nx, r < nper,
c < nz. -/
theorem frechetTriples_mem (ny nx nz nper : ℕ) (fd : ℕ → List ℚ)
    (t : ℕ × ℕ × ℚ)
    (ht : t ∈ ForwardOperator.frechetTriples ny nx nz nper fd) :
    ∃ n r c, n < ny * nx ∧ r < nper ∧ c < nz
      ∧ t.1 = n * nper + r ∧ t.2.1 = n * nz + c := by
  simp only [ForwardOperator.frechetTriples, List.mem_flatMap, List.mem_map,
    List.mem_range] at ht
  obtain ⟨n, hn, r, hr, c, hc, hc2⟩ := ht
  exact ⟨n, r, c, hn, hr, hc, by rw [← hc2], by rw [← hc2]⟩

/-- C3: the sparse matrix assembled by `frechet_derivatives` has every
nonzero entry inside the diagonal block of one node: a nonzero at
(r, c) satisfies r < ny*nx*nper, c < ny*nx*nz and
r div nper = c div nz. -/
theorem frechet_derivatives_block_diagonal (ny nx nz nper : ℕ)
    (fd : ℕ → List ℚ) (hnz : 0 < nz) (hnper : 0 < nper) (r c : ℕ)
    (hne : ForwardOperator.assemble
        (ForwardOperator.frechetTriples ny nx nz nper fd) r c ≠ 0) :
    r < ny * nx * nper ∧ c < ny * nx * nz ∧ r / nper = c / nz := by
  have hx : ∃ t ∈ ForwardOperator.frechetTriples ny nx nz nper fd,
      (t.1 == r && t.2.1 == c) = true := by
    by_contra hno
    push_neg at hno
    have : (ForwardOperator.frechetTriples ny nx nz nper fd).filter
        (fun t => t.1 == r && t.2.1 == c) = [] := by
      apply List.filter_eq_nil_iff.mpr
      intro t ht
      simp only [Bool.not_eq_true]
      exact Bool.not_eq_true _ ▸ (hno t ht)
    rw [ForwardOperator.assemble, this] at hne
    simp at hne
  obtain ⟨t, ht, hmatch⟩ := hx
  obtain ⟨n, r', c', hn, hr', hc', h1, h2⟩ :=
    frechetTriples_mem ny nx nz nper fd t ht
  simp only [Bool.and_eq_true, beq_iff_eq] at hmatch
  obtain ⟨hteq1, hteq2⟩ := hmatch
  have hre : r = n * nper + r' := by rw [← hteq1, h1]
  have hce : c = n * nz + c' := by rw [← hteq2, h2]
  subst hre hce
  refine ⟨?_, ?_, ?_⟩
  · have h3 : (n + 1) * nper ≤ ny * nx * nper :=
      Nat.mul_le_mul_right nper (Nat.succ_le_of_lt hn)
    rw [Nat.succ_mul] at h3
    omega
  · have h3 : (n + 1) * nz ≤ ny * nx * nz :=
      Nat.mul_le_mul_right nz (Nat.succ_le_of_lt hn)
    rw [Nat.succ_mul] at h3
    omega
  · rw [Nat.add_comm (n * nper) r', Nat.add_comm (n * nz) c',
      Nat.add_mul_div_right r' n hnper, Nat.add_mul_div_right c' n hnz,
      Nat.div_eq_of_lt hr', Nat.div_eq_of_lt hc']

/-- C3 witness: a 1 x 2 grid, nz = 2, nper = 1, a concrete local
Jacobian; the assembled entry at (1, 2) is nonzero (the second node's
block) and indeed 1 div 1 = 2 div 2 = node 1. -/
theorem frechet_block_witness :
    1 < 1 * 2 * 1 ∧ 2 < 1 * 2 * 2 ∧ 1 / 1 = 2 / 2 :=
  frechet_derivatives_block_diagonal 1 2 2 1 (fun _ => [5, 6])
    (by decide) (by decide) 1 2 (by with_unfolding_all decide)

/-! ### Claim C1: the forward / inverse round trip -/

theorem map_neg_map_neg (L : List ℚ) :
    (L.map (fun z => (-z : ℚ))).map (fun z => (-z : ℚ)) = L := by
  rw [List.map_map]
  simp [Function.comp]

theorem zipWith_div_zipWith_mul (PR VS : List ℚ) (hlen : PR.length = VS.length)
    (h : ∀ v ∈ VS, v ≠ 0) :
    List.zipWith (fun a b => a / b)
      (List.zipWith (fun a b => a * b) PR VS) VS = PR := by
  induction PR generalizing VS with
  | nil => simp
  | cons a pr ih =>
      cases VS with
      | nil => simp at hlen
      | cons v vs =>
          have hv : v ≠ 0 := h v (by simp)
          simp only [List.zipWith_cons_cons]
          rw [mul_div_cancel_right₀ a hv,
            ih vs (by simpa using hlen) (fun x hx => h x (by simp [hx]))]

theorem take_drop_two (M : List ℚ) (a b : ℕ) (h : M.length = a + b) :
    M.take a ++ (M.drop a).take b = M := by
  rw [← List.take_add, ← h, List.take_length]

theorem take_drop_four (M : List ℚ) (a b c d : ℕ)
    (h : M.length = a + b + c + d) :
    M.take a ++ (M.drop a).take b ++ (M.drop (a + b)).take c
      ++ (M.drop (a + b + c)).take d = M := by
  rw [← List.take_add, ← List.take_add, ← List.take_add, ← h,
    List.take_length]

/-- C1 (amended): for every parameterizer variant, `forward(inverse(m)) == m`
for every parameter vector m with one entry per free parameter — with the
proviso, needed only for variant mZVSPRRH, that the Vs profile rebuilt by
`inverse(m)` has no zero entry (forward recomputes the ratio as VP/VS
there; the bounds of a physically meaningful file keep Vs positive, which
is not enforced by the validation). -/
theorem forward_inverse_roundtrip (p : Parameterizer) (m : List ℚ)
    (hn : 1 ≤ p.NLAYER)
    (hlen : p.VSUP.length = p.VINF.length)
    (hrows : p.VINF.length = Parameterizer.nrows p.ptype p.NLAYER)
    (hm : m.length = p.IDXNOTLOCK.count true)
    (hvs : p.ptype = .mZVSPRRH → ∀ v ∈ (p.inv m).VS, v ≠ 0) :
    p.call (p.inv m).ZTOP (p.inv m).VP (p.inv m).VS (p.inv m).RH = m := by
  obtain ⟨pt, N, vinf, vsup, f1, f2, f3, f4⟩ := p
  simp only [Parameterizer.IDXNOTLOCK] at hm
  have hilen : (List.zipWith (fun a b => decide (a < b)) vinf vsup).length
      = vinf.length := by
    simp [List.length_zipWith, hlen]
  have hDlen : (List.zipWith (fun a b => (a + b) / 2) vinf vsup).length
      = vinf.length := by
    simp [List.length_zipWith, hlen]
  have hMlen : (scatter (List.zipWith (fun a b => (a + b) / 2) vinf vsup)
      (List.zipWith (fun a b => decide (a < b)) vinf vsup) m).length
      = vinf.length := by
    rw [length_scatter, hDlen]
  have hmask : maskSel
      (scatter (List.zipWith (fun a b => (a + b) / 2) vinf vsup)
        (List.zipWith (fun a b => decide (a < b)) vinf vsup) m)
      (List.zipWith (fun a b => decide (a < b)) vinf vsup) = m :=
    maskSel_scatter _ _ m (hDlen.trans hilen.symm) hm.symm
  cases pt with
  | mZVSPRRH =>
      simp only [Parameterizer.nrows] at hrows
      simp only [Parameterizer.inv, Parameterizer.MDEFAULT,
        Parameterizer.IDXNOTLOCK] at hvs
      have hvs2 := hvs trivial
      simp only at hvs2
      simp only [Parameterizer.call, Parameterizer.inv,
        Parameterizer.candidates, Parameterizer.MDEFAULT,
        Parameterizer.IDXNOTLOCK, List.drop_succ_cons, List.drop_zero]
      rw [map_neg_map_neg]
      rw [zipWith_div_zipWith_mul _ _ (by
        simp only [List.length_take, List.length_drop, hMlen, hrows]
        omega) hvs2]
      rw [show (2 * N - 1 : ℕ) = (N - 1) + N by omega,
        show (3 * N - 1 : ℕ) = (N - 1) + N + N by omega]
      rw [take_drop_four _ (N - 1) N N N (by rw [hMlen, hrows]; omega)]
      exact hmask
  | mZVSVPRH =>
      simp only [Parameterizer.nrows] at hrows
      simp only [Parameterizer.call, Parameterizer.inv,
        Parameterizer.candidates, Parameterizer.MDEFAULT,
        Parameterizer.IDXNOTLOCK, List.drop_succ_cons, List.drop_zero]
      rw [map_neg_map_neg]
      rw [show (2 * N - 1 : ℕ) = (N - 1) + N by omega,
        show (3 * N - 1 : ℕ) = (N - 1) + N + N by omega]
      rw [take_drop_four _ (N - 1) N N N (by rw [hMlen, hrows]; omega)]
      exact hmask
  | mZVSPRzRHvp =>
      simp only [Parameterizer.nrows] at hrows
      simp only [Parameterizer.call, Parameterizer.inv,
        Parameterizer.candidates, Parameterizer.MDEFAULT,
        Parameterizer.IDXNOTLOCK, List.drop_succ_cons, List.drop_zero]
      rw [map_neg_map_neg]
      rw [take_drop_two _ (N - 1) N (by rw [hMlen, hrows]; omega)]
      exact hmask
  | mZVSPRzRHz =>
      simp only [Parameterizer.nrows] at hrows
      simp only [Parameterizer.call, Parameterizer.inv,
        Parameterizer.candidates, Parameterizer.MDEFAULT,
        Parameterizer.IDXNOTLOCK, List.drop_succ_cons, List.drop_zero]
      rw [map_neg_map_neg]
      rw [take_drop_two _ (N - 1) N (by rw [hMlen, hrows]; omega)]
      exact hmask
  | mZVSVPvsRHvp =>
      simp only [Parameterizer.nrows] at hrows
      simp only [Parameterizer.call, Parameterizer.inv,
        Parameterizer.candidates, Parameterizer.MDEFAULT,
        Parameterizer.IDXNOTLOCK, List.drop_succ_cons, List.drop_zero]
      rw [map_neg_map_neg]
      rw [take_drop_two _ (N - 1) N (by rw [hMlen, hrows]; omega)]
      exact hmask

/-- C1 counterexample: for variant mZVSPRRH the round trip can fail at a
vector strictly inside the bounds.  NLAYER = 1, rows VS0 in (-1, 1) free,
PR0 in (1, 3) free, RH0 locked at 2; m = [0, 2] has both entries strictly
inside (MINF, MSUP), yet forward(inverse(m)) recomputes the ratio as
VP/VS = (2*0)/0, which is not 2 (nan in the numpy source, 0 in ℚ), so the
round trip does not return m. -/
theorem roundtrip_fails_at_zero_vs :
    Parameterizer.MINF ⟨.mZVSPRRH, 1, [-1, 1, 2], [1, 3, 2], id, id, id, id⟩
      = [-1, 1]
  ∧ Parameterizer.MSUP ⟨.mZVSPRRH, 1, [-1, 1, 2], [1, 3, 2], id, id, id, id⟩
      = [1, 3]
  ∧ ((-1 : ℚ) < 0 ∧ (0 : ℚ) < 1 ∧ (1 : ℚ) < 2 ∧ (2 : ℚ) < 3)
  ∧ Parameterizer.call ⟨.mZVSPRRH, 1, [-1, 1, 2], [1, 3, 2], id, id, id, id⟩
      (Parameterizer.inv ⟨.mZVSPRRH, 1, [-1, 1, 2], [1, 3, 2], id, id, id, id⟩ [0, 2]).ZTOP
      (Parameterizer.inv ⟨.mZVSPRRH, 1, [-1, 1, 2], [1, 3, 2], id, id, id, id⟩ [0, 2]).VP
      (Parameterizer.inv ⟨.mZVSPRRH, 1, [-1, 1, 2], [1, 3, 2], id, id, id, id⟩ [0, 2]).VS
      (Parameterizer.inv ⟨.mZVSPRRH, 1, [-1, 1, 2], [1, 3, 2], id, id, id, id⟩ [0, 2]).RH
      ≠ [0, 2] := by
  refine ⟨by with_unfolding_all decide, by with_unfolding_all decide,
    by with_unfolding_all decide, by with_unfolding_all decide⟩

/-- C1 witness: the round trip holds at the concrete C7 scenario
(variant mZVSPRRH with nonzero Vs) at m = MMEAN. -/
theorem roundtrip_witness :
    Parameterizer.call
      ⟨.mZVSPRRH, 2, [-3/2, 1, 1, 9/5, 9/5, 11/5, 11/5],
        [-1/2, 2, 2, 9/5, 9/5, 11/5, 11/5], id, id, id, id⟩
      (Parameterizer.inv
        ⟨.mZVSPRRH, 2, [-3/2, 1, 1, 9/5, 9/5, 11/5, 11/5],
          [-1/2, 2, 2, 9/5, 9/5, 11/5, 11/5], id, id, id, id⟩ [-1, 3/2, 3/2]).ZTOP
      (Parameterizer.inv
        ⟨.mZVSPRRH, 2, [-3/2, 1, 1, 9/5, 9/5, 11/5, 11/5],
          [-1/2, 2, 2, 9/5, 9/5, 11/5, 11/5], id, id, id, id⟩ [-1, 3/2, 3/2]).VP
      (Parameterizer.inv
        ⟨.mZVSPRRH, 2, [-3/2, 1, 1, 9/5, 9/5, 11/5, 11/5],
          [-1/2, 2, 2, 9/5, 9/5, 11/5, 11/5], id, id, id, id⟩ [-1, 3/2, 3/2]).VS
      (Parameterizer.inv
        ⟨.mZVSPRRH, 2, [-3/2, 1, 1, 9/5, 9/5, 11/5, 11/5],
          [-1/2, 2, 2, 9/5, 9/5, 11/5, 11/5], id, id, id, id⟩ [-1, 3/2, 3/2]).RH
      = [-1, 3/2, 3/2] :=
  forward_inverse_roundtrip
    ⟨.mZVSPRRH, 2, [-3/2, 1, 1, 9/5, 9/5, 11/5, 11/5],
      [-1/2, 2, 2, 9/5, 9/5, 11/5, 11/5], id, id, id, id⟩ [-1, 3/2, 3/2]
    (by decide) (by with_unfolding_all decide) (by with_unfolding_all decide)
    (by with_unfolding_all decide) (by with_unfolding_all decide)

/-! ### Lemmas for the boundaries envelope (claim C5) -/


theorem zipWith_min_self (L : List ℚ) : List.zipWith min L L = L := by
  induction L with
  | nil => rfl
  | cons a l ih => simp [ih]

theorem zipWith_max_self (L : List ℚ) : List.zipWith max L L = L := by
  induction L with
  | nil => rfl
  | cons a l ih => simp [ih]

theorem countP_le_of_sorted (Z : List ℚ) (hs : Z.Sorted (fun a b => a < b))
    (j : ℕ) (hj : j < Z.length) :
    Z.countP (fun zt => decide (zt ≤ Z.getD j 0)) = j + 1 := by
  induction Z generalizing j with
  | nil => simp at hj
  | cons z Z ih =>
      rw [List.sorted_cons] at hs
      cases j with
      | zero =>
          rw [List.getD_cons_zero, List.countP_cons]
          have h0 : Z.countP (fun zt => decide (zt ≤ z)) = 0 := by
            apply List.countP_eq_zero.mpr
            intro a ha
            simpa using not_le.mpr (hs.1 a ha)
          simp [h0]
      | succ j =>
          have hj' : j < Z.length := by simpa using hj
          rw [List.getD_cons_succ, List.countP_cons]
          have hzle : z ≤ Z.getD j 0 := by
            rw [List.getD_eq_getElem Z 0 hj']
            exact le_of_lt (hs.1 _ (Z.getElem_mem hj'))
          rw [ih hs.2 j hj', decide_eq_true hzle]
          simp

theorem stairs_interp_self (Z V : List ℚ) (hs : Z.Sorted (fun a b => a < b))
    (hlen : V.length = Z.length) :
    Z.map (stairsVal Z V) = V := by
  apply List.ext_getElem (by simp [hlen])
  intro j h1 h2
  simp only [List.getElem_map]
  rw [stairsVal]
  have hj : j < Z.length := by simpa using h1
  have hc := countP_le_of_sorted Z hs j hj
  rw [List.getD_eq_getElem Z 0 hj] at hc
  rw [hc]
  simp only [Nat.add_sub_cancel]
  exact List.getD_eq_getElem V 0 h2

theorem sortedUnique_self (l : List ℚ) (hs : l.Sorted (fun a b => a < b)) :
    sortedUnique (l ++ l) = l := by
  have hnd : l.Nodup := hs.nodup
  have hperm : ((l ++ l).dedup).Perm l := by
    rw [List.perm_ext_iff_of_nodup (List.nodup_dedup _) hnd]
    intro a
    simp [List.mem_dedup]
  have hperm2 : (sortedUnique (l ++ l)).Perm l :=
    (List.perm_insertionSort _ _).trans hperm
  exact List.eq_of_perm_of_sorted hperm2
    (List.sorted_insertionSort _ _) hs.le_of_lt

theorem scatter_maskSel (ds xs : List ℚ) (bs : List Bool)
    (hlen1 : ds.length = bs.length) (hlen2 : xs.length = ds.length)
    (hd : ∀ i, i < ds.length → bs.getD i true = false →
      ds.getD i 0 = xs.getD i 0) :
    scatter ds bs (maskSel xs bs) = xs := by
  induction ds generalizing xs bs with
  | nil =>
      cases xs with
      | nil => cases bs <;> rfl
      | cons x xs => simp at hlen2
  | cons d ds ih =>
      cases bs with
      | nil => simp at hlen1
      | cons b bs =>
          cases xs with
          | nil => simp at hlen2
          | cons x xs =>
              have hlen1' : ds.length = bs.length := by simpa using hlen1
              have hlen2' : xs.length = ds.length := by simpa using hlen2
              have hih : scatter ds bs (maskSel xs bs) = xs :=
                ih xs bs hlen1' hlen2'
                  (fun i hi hb => by
                    simpa using hd (i + 1) (by simpa using hi)
                      (by simpa using hb))
              cases b with
              | true =>
                  have e1 : maskSel (x :: xs) (true :: bs)
                      = x :: maskSel xs bs := by simp [maskSel]
                  have e2 : scatter (d :: ds) (true :: bs)
                        (x :: maskSel xs bs)
                      = x :: scatter ds bs (maskSel xs bs) := by
                    simp [scatter]
                  rw [e1, e2, hih]
              | false =>
                  have hdx : d = x := by
                    simpa using hd 0 (by simp) (by simp)
                  have e1 : maskSel (x :: xs) (false :: bs)
                      = maskSel xs bs := by simp [maskSel]
                  have e2 : scatter (d :: ds) (false :: bs)
                        (maskSel xs bs)
                      = d :: scatter ds bs (maskSel xs bs) := by
                    simp [scatter]
                  rw [e1, e2, hih, hdx]

theorem forall₂_getD_le (V W : List ℚ) (h : List.Forall₂ (fun a b => a ≤ b) V W)
    (i : ℕ) : V.getD i 0 ≤ W.getD i 0 := by
  induction h generalizing i with
  | nil => simp
  | cons hab hrest ih =>
      cases i with
      | zero => simpa using hab
      | succ i => simpa using ih i

theorem stairsVal_le (Z A B : List ℚ) (x : ℚ)
    (h : List.Forall₂ (fun a b => a ≤ b) A B) :
    stairsVal Z A x ≤ stairsVal Z B x :=
  forall₂_getD_le A B h _

theorem forall₂_le_mid (vinf vsup : List ℚ)
    (h : List.Forall₂ (fun a b => a ≤ b) vinf vsup) :
    List.Forall₂ (fun a b => a ≤ b) vinf
      (List.zipWith (fun a b => (a + b) / 2) vinf vsup) := by
  induction h with
  | nil => simp
  | cons hab h ih =>
      simp only [List.zipWith_cons_cons]
      exact List.Forall₂.cons (by linarith) ih

theorem forall₂_mid_le (vinf vsup : List ℚ)
    (h : List.Forall₂ (fun a b => a ≤ b) vinf vsup) :
    List.Forall₂ (fun a b => a ≤ b)
      (List.zipWith (fun a b => (a + b) / 2) vinf vsup) vsup := by
  induction h with
  | nil => simp
  | cons hab h ih =>
      simp only [List.zipWith_cons_cons]
      exact List.Forall₂.cons (by linarith) ih

theorem forall₂_zipWith_div_le (A B C D : List ℚ)
    (hAB : List.Forall₂ (fun a b => a ≤ b) A B)
    (hCD : List.Forall₂ (fun a b => a ≤ b) C D)
    (h0B : ∀ b ∈ B, 0 ≤ b) (h0C : ∀ c ∈ C, 0 < c) :
    List.Forall₂ (fun a b => a ≤ b)
      (List.zipWith (fun a b => a / b) A D)
      (List.zipWith (fun a b => a / b) B C) := by
  induction hAB generalizing C D with
  | nil => simp
  | cons hab hrest ih =>
      cases hCD with
      | nil => simp
      | cons hcd hrest2 =>
          simp only [List.zipWith_cons_cons]
          refine List.Forall₂.cons ?_ (ih _ _ hrest2
            (fun y hy => h0B y (by simp [hy]))
            (fun y hy => h0C y (by simp [hy])))
          exact div_le_div₀ (h0B _ (by simp)) hab (h0C _ (by simp)) hcd

theorem forall₂_pos_of_le (A B : List ℚ)
    (h : List.Forall₂ (fun a b => a ≤ b) A B)
    (hA : ∀ a ∈ A, 0 < a) : ∀ b ∈ B, 0 < b := by
  induction h with
  | nil => simp
  | cons hab hrest ih =>
      intro b hb
      rcases List.mem_cons.mp hb with rfl | hb
      · exact lt_of_lt_of_le (hA _ (by simp)) hab
      · exact ih (fun a ha => hA a (by simp [ha])) b hb

theorem mid_take_eq (vinf vsup : List ℚ) (k : ℕ)
    (hz : vinf.take k = vsup.take k) :
    (List.zipWith (fun a b => (a + b) / 2) vinf vsup).take k
      = vinf.take k := by
  induction vinf generalizing vsup k with
  | nil => simp
  | cons a va ih =>
      cases vsup with
      | nil =>
          cases k with
          | zero => simp
          | succ k => simp at hz
      | cons b vb =>
          cases k with
          | zero => simp
          | succ k =>
              simp only [List.take_succ_cons, List.zipWith_cons_cons,
                List.cons.injEq] at hz ⊢
              obtain ⟨hab, h2⟩ := hz
              subst hab
              exact ⟨by ring, ih vb k h2⟩


end Srf

namespace Srf

theorem forall₂_zipWith_mul_le (A B C D : List ℚ)
    (hAB : List.Forall₂ (fun a b => a ≤ b) A B)
    (hCD : List.Forall₂ (fun a b => a ≤ b) C D)
    (h0C : ∀ c ∈ C, (0 : ℚ) ≤ c) (h0B : ∀ b ∈ B, (0 : ℚ) ≤ b) :
    List.Forall₂ (fun a b => a ≤ b)
      (List.zipWith (fun a b => a * b) A C)
      (List.zipWith (fun a b => a * b) B D) := by
  induction hAB generalizing C D with
  | nil => simp
  | cons hab hrest ih =>
      cases hCD with
      | nil => simp
      | cons hcd hrest2 =>
          simp only [List.zipWith_cons_cons]
          refine List.Forall₂.cons ?_ (ih _ _ hrest2
            (fun y hy => h0C y (by simp [hy]))
            (fun y hy => h0B y (by simp [hy])))
          exact mul_le_mul hab hcd (h0C _ (by simp)) (h0B _ (by simp))

/-- C5 (amended), for the two fully-free variants mZVSPRRH and mZVSVPRH:
when all interface-depth rows are locked (VINF = VSUP on the first
NLAYER-1 rows), the bounds are valid (VINF <= VSUP), the physical rows
have positive lower bounds, and the common depth axis is strictly
increasing, then at every depth x the envelopes returned by
`boundaries()` bracket the model inverted from MMEAN for Vs, Vp and
density.  The Vp/Vs ratio envelopes bracket it in the claimed direction
PRlow <= PRmean <= PRhigh for variant mZVSPRRH (whose `boundaries()`
takes the ratio envelopes directly from the ratio profiles), but in the
REVERSED direction PRhigh <= PRmean <= PRlow for variant mZVSVPRH (the
base-class algorithm computes prlow = vphgh/vslow and
prhgh = vplow/vshgh). -/
theorem boundaries_bracket_mean_locked_depths (p : Parameterizer) (x : ℚ)
    (hpt : p.ptype = .mZVSPRRH ∨ p.ptype = .mZVSVPRH)
    (hn : 1 ≤ p.NLAYER)
    (hrows : p.VINF.length = 4 * p.NLAYER - 1)
    (hlen : p.VSUP.length = p.VINF.length)
    (hbnd : List.Forall₂ (fun a b => a ≤ b) p.VINF p.VSUP)
    (hz : p.VINF.take (p.NLAYER - 1) = p.VSUP.take (p.NLAYER - 1))
    (hsort : ((0 : ℚ) :: (List.map (fun t => -t)
        (List.take (p.NLAYER - 1) p.VINF))).Sorted (fun a b => a < b))
    (hpos : ∀ v ∈ p.VINF.drop (p.NLAYER - 1), 0 < v) :
    (stairsVal p.boundaries.2.z p.boundaries.2.vslow x
        ≤ stairsVal (p.inv p.MMEAN).ZTOP (p.inv p.MMEAN).VS x
      ∧ stairsVal (p.inv p.MMEAN).ZTOP (p.inv p.MMEAN).VS x
        ≤ stairsVal p.boundaries.2.z p.boundaries.2.vshgh x)
  ∧ (stairsVal p.boundaries.2.z p.boundaries.2.vplow x
        ≤ stairsVal (p.inv p.MMEAN).ZTOP (p.inv p.MMEAN).VP x
      ∧ stairsVal (p.inv p.MMEAN).ZTOP (p.inv p.MMEAN).VP x
        ≤ stairsVal p.boundaries.2.z p.boundaries.2.vphgh x)
  ∧ (stairsVal p.boundaries.2.z p.boundaries.2.rhlow x
        ≤ stairsVal (p.inv p.MMEAN).ZTOP (p.inv p.MMEAN).RH x
      ∧ stairsVal (p.inv p.MMEAN).ZTOP (p.inv p.MMEAN).RH x
        ≤ stairsVal p.boundaries.2.z p.boundaries.2.rhhgh x)
  ∧ (p.ptype = .mZVSPRRH →
      stairsVal p.boundaries.2.z p.boundaries.2.prlow x
        ≤ stairsVal (p.inv p.MMEAN).ZTOP
            (List.zipWith (fun a b => a / b) (p.inv p.MMEAN).VP (p.inv p.MMEAN).VS) x
      ∧ stairsVal (p.inv p.MMEAN).ZTOP
            (List.zipWith (fun a b => a / b) (p.inv p.MMEAN).VP (p.inv p.MMEAN).VS) x
        ≤ stairsVal p.boundaries.2.z p.boundaries.2.prhgh x)
  ∧ (p.ptype = .mZVSVPRH →
      stairsVal p.boundaries.2.z p.boundaries.2.prhgh x
        ≤ stairsVal (p.inv p.MMEAN).ZTOP
            (List.zipWith (fun a b => a / b) (p.inv p.MMEAN).VP (p.inv p.MMEAN).VS) x
      ∧ stairsVal (p.inv p.MMEAN).ZTOP
            (List.zipWith (fun a b => a / b) (p.inv p.MMEAN).VP (p.inv p.MMEAN).VS) x
        ≤ stairsVal p.boundaries.2.z p.boundaries.2.prlow x) := by
  obtain ⟨pt, N, vinf, vsup, f1, f2, f3, f4⟩ := p
  simp only at hpt hn hrows hlen hbnd hz hsort hpos
  -- lengths
  have hvsl : vsup.length = vinf.length := hlen
  have hIlen : (List.zipWith (fun a b => decide (a < b)) vinf vsup).length = vinf.length := by
    simp [List.length_zipWith, hvsl]
  have hDlen : (List.zipWith (fun a b => (a + b) / 2) vinf vsup).length = vinf.length := by
    simp [List.length_zipWith, hvsl]
  -- pointwise default values at locked positions
  have hlocked : ∀ (w : List ℚ), w = vinf ∨ w = vsup →
      ∀ i, i < (List.zipWith (fun a b => (a + b) / 2) vinf vsup).length → (List.zipWith (fun a b => decide (a < b)) vinf vsup).getD i true = false →
      (List.zipWith (fun a b => (a + b) / 2) vinf vsup).getD i 0 = w.getD i 0 := by
    intro w hw i hi hb
    have hi1 : i < vinf.length := hDlen ▸ hi
    have hi2 : i < vsup.length := by omega
    rw [getD_zipWith (fun a b => decide (a < b)) vinf vsup i true hi1 hi2] at hb
    have hle : vinf.getD i 0 ≤ vsup.getD i 0 := forall₂_getD_le _ _ hbnd i
    have heq : vinf.getD i 0 = vsup.getD i 0 := by
      by_contra hne
      have hlt : vinf.getD i 0 < vsup.getD i 0 := lt_of_le_of_ne hle hne
      rw [decide_eq_true hlt] at hb
      simp at hb
    rw [getD_zipWith (fun a b => (a + b) / 2) vinf vsup i 0 hi1 hi2]
    rcases hw with rfl | rfl
    · rw [← heq]; ring
    · rw [heq]; ring
  -- the three scattered full vectors
  have hMinf : scatter (List.zipWith (fun a b => (a + b) / 2) vinf vsup) (List.zipWith (fun a b => decide (a < b)) vinf vsup) (maskSel vinf (List.zipWith (fun a b => decide (a < b)) vinf vsup)) = vinf :=
    scatter_maskSel _ _ _ (hDlen.trans hIlen.symm) (hDlen.symm)
      (hlocked vinf (Or.inl rfl))
  have hMsup : scatter (List.zipWith (fun a b => (a + b) / 2) vinf vsup) (List.zipWith (fun a b => decide (a < b)) vinf vsup) (maskSel vsup (List.zipWith (fun a b => decide (a < b)) vinf vsup)) = vsup :=
    scatter_maskSel _ _ _ (hDlen.trans hIlen.symm)
      (by omega) (hlocked vsup (Or.inr rfl))
  have hMmean : scatter (List.zipWith (fun a b => (a + b) / 2) vinf vsup) (List.zipWith (fun a b => decide (a < b)) vinf vsup) (maskSel (List.zipWith (fun a b => (a + b) / 2) vinf vsup) (List.zipWith (fun a b => decide (a < b)) vinf vsup)) = (List.zipWith (fun a b => (a + b) / 2) vinf vsup) :=
    scatter_maskSel _ _ _ (hDlen.trans hIlen.symm) rfl
      (fun i hi hb => rfl)
  -- length of the common depth axis
  have hZ0len : ((0 : ℚ) :: (List.map (fun t => -t) (List.take (N - 1) vinf))).length = N := by
    simp only [List.length_cons, List.length_map, List.length_take, hrows]
    omega
  -- stairs reinterpolation onto the common axis is the identity
  have envid : ∀ V : List ℚ, V.length = N →
      (envMin ((0 : ℚ) :: (List.map (fun t => -t) (List.take (N - 1) vinf))) ((0 : ℚ) :: (List.map (fun t => -t) (List.take (N - 1) vinf))) V ((0 : ℚ) :: (List.map (fun t => -t) (List.take (N - 1) vinf))) = V ∧ envMax ((0 : ℚ) :: (List.map (fun t => -t) (List.take (N - 1) vinf))) ((0 : ℚ) :: (List.map (fun t => -t) (List.take (N - 1) vinf))) V ((0 : ℚ) :: (List.map (fun t => -t) (List.take (N - 1) vinf))) = V) := by
    intro V hV
    have hid : List.map (stairsVal ((0 : ℚ) :: (List.map (fun t => -t) (List.take (N - 1) vinf))) V) ((0 : ℚ) :: (List.map (fun t => -t) (List.take (N - 1) vinf))) = V :=
      stairs_interp_self _ _ hsort (by omega)
    constructor
    · rw [envMin, interpStairs, hid, zipWith_min_self]
    · rw [envMax, interpStairs, hid, zipWith_max_self]
  have hslicelen : ∀ (w : List ℚ), w.length = vinf.length → ∀ k : ℕ,
      k ≤ 3 * N - 1 → (List.take N (List.drop k w)).length = N := by
    intro w hw k hk
    simp only [List.length_take, List.length_drop, hw, hrows]
    omega
  -- componentwise orderings
  have hDl : List.Forall₂ (fun a b => a ≤ b) vinf (List.zipWith (fun a b => (a + b) / 2) vinf vsup) := forall₂_le_mid _ _ hbnd
  have hDu : List.Forall₂ (fun a b => a ≤ b) (List.zipWith (fun a b => (a + b) / 2) vinf vsup) vsup := forall₂_mid_le _ _ hbnd
  have hsl : ∀ k : ℕ, List.Forall₂ (fun a b => a ≤ b)
      (List.take N (List.drop k vinf)) (List.take N (List.drop k (List.zipWith (fun a b => (a + b) / 2) vinf vsup))) :=
    fun k => List.forall₂_take N (List.forall₂_drop k hDl)
  have hsu : ∀ k : ℕ, List.Forall₂ (fun a b => a ≤ b)
      (List.take N (List.drop k (List.zipWith (fun a b => (a + b) / 2) vinf vsup))) (List.take N (List.drop k vsup)) :=
    fun k => List.forall₂_take N (List.forall₂_drop k hDu)
  -- positivity of the physical entries
  have hposD : ∀ v ∈ (List.zipWith (fun a b => (a + b) / 2) vinf vsup).drop (N - 1), 0 < v :=
    forall₂_pos_of_le _ _ (List.forall₂_drop (N - 1) hDl) hpos
  have hposS : ∀ v ∈ vsup.drop (N - 1), 0 < v :=
    forall₂_pos_of_le _ _ (List.forall₂_drop (N - 1) hbnd) hpos
  have hsub : ∀ (w : List ℚ), List.drop (2 * N - 1) w ⊆ List.drop (N - 1) w := by
    intro w y hy
    have he : List.drop (2 * N - 1) w = (List.drop (N - 1) w).drop N := by
      rw [List.drop_drop]
      congr 1
      omega
    rw [he] at hy
    exact List.drop_subset _ _ hy
  have hposVSinf : ∀ v ∈ (List.take N (List.drop (N - 1) vinf)), 0 < v :=
    fun v hv => hpos v (List.take_subset _ _ hv)
  have hposVSm : ∀ v ∈ (List.take N (List.drop (N - 1) (List.zipWith (fun a b => (a + b) / 2) vinf vsup))), 0 < v :=
    fun v hv => hposD v (List.take_subset _ _ hv)
  have hposVSsup : ∀ v ∈ (List.take N (List.drop (N - 1) vsup)), 0 < v :=
    fun v hv => hposS v (List.take_subset _ _ hv)
  have hposP2inf : ∀ v ∈ (List.take N (List.drop (2 * N - 1) vinf)), 0 < v :=
    fun v hv => hpos v (hsub _ (List.take_subset _ _ hv))
  have hposP2m : ∀ v ∈ (List.take N (List.drop (2 * N - 1) (List.zipWith (fun a b => (a + b) / 2) vinf vsup))), 0 < v :=
    fun v hv => hposD v (hsub _ (List.take_subset _ _ hv))
  have hposP2sup : ∀ v ∈ (List.take N (List.drop (2 * N - 1) vsup)), 0 < v :=
    fun v hv => hposS v (hsub _ (List.take_subset _ _ hv))
  rcases hpt with hA | hB2
  · -- variant mZVSPRRH: ratio envelopes come directly from the ratio rows
    subst hA
    have hprlen : (List.take N (List.drop (2 * N - 1) (List.zipWith (fun a b => (a + b) / 2) vinf vsup))).length = (List.take N (List.drop (N - 1) (List.zipWith (fun a b => (a + b) / 2) vinf vsup))).length :=
      (hslicelen (List.zipWith (fun a b => (a + b) / 2) vinf vsup) hDlen _ (by omega)).trans
        (hslicelen (List.zipWith (fun a b => (a + b) / 2) vinf vsup) hDlen _ (by omega)).symm
    have hprm : List.zipWith (fun a b => a / b)
        (List.zipWith (fun a b => a * b) (List.take N (List.drop (2 * N - 1) (List.zipWith (fun a b => (a + b) / 2) vinf vsup))) (List.take N (List.drop (N - 1) (List.zipWith (fun a b => (a + b) / 2) vinf vsup)))) (List.take N (List.drop (N - 1) (List.zipWith (fun a b => (a + b) / 2) vinf vsup))) = (List.take N (List.drop (2 * N - 1) (List.zipWith (fun a b => (a + b) / 2) vinf vsup))) :=
      zipWith_div_zipWith_mul _ _ hprlen
        (fun v hv => ne_of_gt (hposVSm v hv))
    have hprinf : List.zipWith (fun a b => a / b)
        (List.zipWith (fun a b => a * b) (List.take N (List.drop (2 * N - 1) vinf)) (List.take N (List.drop (N - 1) vinf))) (List.take N (List.drop (N - 1) vinf)) = (List.take N (List.drop (2 * N - 1) vinf)) :=
      zipWith_div_zipWith_mul _ _
        ((hslicelen vinf rfl _ (by omega)).trans
          (hslicelen vinf rfl _ (by omega)).symm)
        (fun v hv => ne_of_gt (hposVSinf v hv))
    have hprsup : List.zipWith (fun a b => a / b)
        (List.zipWith (fun a b => a * b) (List.take N (List.drop (2 * N - 1) vsup)) (List.take N (List.drop (N - 1) vsup))) (List.take N (List.drop (N - 1) vsup)) = (List.take N (List.drop (2 * N - 1) vsup)) :=
      zipWith_div_zipWith_mul _ _
        ((hslicelen vsup hvsl _ (by omega)).trans
          (hslicelen vsup hvsl _ (by omega)).symm)
        (fun v hv => ne_of_gt (hposVSsup v hv))
    have einva : Parameterizer.inv ⟨.mZVSPRRH, N, vinf, vsup, f1, f2, f3, f4⟩
        (Parameterizer.MINF ⟨.mZVSPRRH, N, vinf, vsup, f1, f2, f3, f4⟩)
        = ⟨(0 : ℚ) :: (List.map (fun t => -t) (List.take (N - 1) vinf)),
            List.zipWith (fun a b => a * b) (List.take N (List.drop (2 * N - 1) vinf)) (List.take N (List.drop (N - 1) vinf)), (List.take N (List.drop (N - 1) vinf)), (List.take N (List.drop (3 * N - 1) vinf))⟩ := by
      simp only [Parameterizer.inv, Parameterizer.MINF, Parameterizer.MDEFAULT,
        Parameterizer.IDXNOTLOCK]
      rw [hMinf]
    have einvb : Parameterizer.inv ⟨.mZVSPRRH, N, vinf, vsup, f1, f2, f3, f4⟩
        (Parameterizer.MSUP ⟨.mZVSPRRH, N, vinf, vsup, f1, f2, f3, f4⟩)
        = ⟨(0 : ℚ) :: (List.map (fun t => -t) (List.take (N - 1) vsup)),
            List.zipWith (fun a b => a * b) (List.take N (List.drop (2 * N - 1) vsup)) (List.take N (List.drop (N - 1) vsup)), (List.take N (List.drop (N - 1) vsup)), (List.take N (List.drop (3 * N - 1) vsup))⟩ := by
      simp only [Parameterizer.inv, Parameterizer.MSUP, Parameterizer.MDEFAULT,
        Parameterizer.IDXNOTLOCK]
      rw [hMsup]
    have einvm : Parameterizer.inv ⟨.mZVSPRRH, N, vinf, vsup, f1, f2, f3, f4⟩
        (Parameterizer.MMEAN ⟨.mZVSPRRH, N, vinf, vsup, f1, f2, f3, f4⟩)
        = ⟨((0 : ℚ) :: (List.map (fun t => -t) (List.take (N - 1) vinf))), List.zipWith (fun a b => a * b) (List.take N (List.drop (2 * N - 1) (List.zipWith (fun a b => (a + b) / 2) vinf vsup))) (List.take N (List.drop (N - 1) (List.zipWith (fun a b => (a + b) / 2) vinf vsup))), (List.take N (List.drop (N - 1) (List.zipWith (fun a b => (a + b) / 2) vinf vsup))), (List.take N (List.drop (3 * N - 1) (List.zipWith (fun a b => (a + b) / 2) vinf vsup)))⟩ := by
      simp only [Parameterizer.MMEAN, Parameterizer.inv, Parameterizer.MDEFAULT,
        Parameterizer.IDXNOTLOCK]
      rw [hMmean, mid_take_eq vinf vsup (N - 1) hz]
    have hBrec : Parameterizer.boundaries ⟨.mZVSPRRH, N, vinf, vsup, f1, f2, f3, f4⟩
        = ([], ⟨((0 : ℚ) :: (List.map (fun t => -t) (List.take (N - 1) vinf))),
            List.zipWith (fun a b => a * b) (List.take N (List.drop (2 * N - 1) vinf)) (List.take N (List.drop (N - 1) vinf)),
            List.zipWith (fun a b => a * b) (List.take N (List.drop (2 * N - 1) vsup)) (List.take N (List.drop (N - 1) vsup)),
            (List.take N (List.drop (N - 1) vinf)), (List.take N (List.drop (N - 1) vsup)), (List.take N (List.drop (3 * N - 1) vinf)), (List.take N (List.drop (3 * N - 1) vsup)), (List.take N (List.drop (2 * N - 1) vinf)), (List.take N (List.drop (2 * N - 1) vsup))⟩) := by
      simp only [Parameterizer.boundaries, Parameterizer.boundariesA]
      rw [einva, einvb]
      simp only [← hz]
      rw [sortedUnique_self _ hsort, hprinf, hprsup,
        (envid _ (hslicelen vinf rfl _ (by omega))).1,
        (envid _ (hslicelen vsup hvsl _ (by omega))).2,
        (envid _ (hslicelen vinf rfl _ (by omega))).1,
        (envid _ (hslicelen vsup hvsl _ (by omega))).2,
        (envid _ (hslicelen vinf rfl _ (by omega))).1,
        (envid _ (hslicelen vsup hvsl _ (by omega))).2]
    have hprmeanl : List.Forall₂ (fun a b => a ≤ b) (List.take N (List.drop (2 * N - 1) vinf))
        (List.zipWith (fun a b => a / b)
          (List.zipWith (fun a b => a * b) (List.take N (List.drop (2 * N - 1) (List.zipWith (fun a b => (a + b) / 2) vinf vsup))) (List.take N (List.drop (N - 1) (List.zipWith (fun a b => (a + b) / 2) vinf vsup)))) (List.take N (List.drop (N - 1) (List.zipWith (fun a b => (a + b) / 2) vinf vsup)))) := by
      rw [hprm]
      exact hsl (2 * N - 1)
    have hprmeanu : List.Forall₂ (fun a b => a ≤ b)
        (List.zipWith (fun a b => a / b)
          (List.zipWith (fun a b => a * b) (List.take N (List.drop (2 * N - 1) (List.zipWith (fun a b => (a + b) / 2) vinf vsup))) (List.take N (List.drop (N - 1) (List.zipWith (fun a b => (a + b) / 2) vinf vsup)))) (List.take N (List.drop (N - 1) (List.zipWith (fun a b => (a + b) / 2) vinf vsup)))) (List.take N (List.drop (2 * N - 1) vsup)) := by
      rw [hprm]
      exact hsu (2 * N - 1)
    rw [hBrec, einvm]
    refine ⟨⟨?_, ?_⟩, ⟨?_, ?_⟩, ⟨?_, ?_⟩, fun _ => ⟨?_, ?_⟩, ?_⟩
    · exact stairsVal_le _ _ _ x (hsl (N - 1))
    · exact stairsVal_le _ _ _ x (hsu (N - 1))
    · exact stairsVal_le _ _ _ x
        (forall₂_zipWith_mul_le _ _ _ _ (hsl (2 * N - 1)) (hsl (N - 1))
          (fun v hv => le_of_lt (hposVSinf v hv))
          (fun v hv => le_of_lt (hposP2m v hv)))
    · exact stairsVal_le _ _ _ x
        (forall₂_zipWith_mul_le _ _ _ _ (hsu (2 * N - 1)) (hsu (N - 1))
          (fun v hv => le_of_lt (hposVSm v hv))
          (fun v hv => le_of_lt (hposP2sup v hv)))
    · exact stairsVal_le _ _ _ x (hsl (3 * N - 1))
    · exact stairsVal_le _ _ _ x (hsu (3 * N - 1))
    · exact stairsVal_le _ _ _ x hprmeanl
    · exact stairsVal_le _ _ _ x hprmeanu
    · intro hco
      simp at hco
  · -- variant mZVSVPRH: the base-class algorithm, ratio envelopes reversed
    subst hB2
    have einva : Parameterizer.inv ⟨.mZVSVPRH, N, vinf, vsup, f1, f2, f3, f4⟩
        (Parameterizer.MINF ⟨.mZVSVPRH, N, vinf, vsup, f1, f2, f3, f4⟩)
        = ⟨(0 : ℚ) :: (List.map (fun t => -t) (List.take (N - 1) vinf)),
            (List.take N (List.drop (2 * N - 1) vinf)), (List.take N (List.drop (N - 1) vinf)), (List.take N (List.drop (3 * N - 1) vinf))⟩ := by
      simp only [Parameterizer.inv, Parameterizer.MINF, Parameterizer.MDEFAULT,
        Parameterizer.IDXNOTLOCK]
      rw [hMinf]
    have einvb : Parameterizer.inv ⟨.mZVSVPRH, N, vinf, vsup, f1, f2, f3, f4⟩
        (Parameterizer.MSUP ⟨.mZVSVPRH, N, vinf, vsup, f1, f2, f3, f4⟩)
        = ⟨(0 : ℚ) :: (List.map (fun t => -t) (List.take (N - 1) vsup)),
            (List.take N (List.drop (2 * N - 1) vsup)), (List.take N (List.drop (N - 1) vsup)), (List.take N (List.drop (3 * N - 1) vsup))⟩ := by
      simp only [Parameterizer.inv, Parameterizer.MSUP, Parameterizer.MDEFAULT,
        Parameterizer.IDXNOTLOCK]
      rw [hMsup]
    have einvm : Parameterizer.inv ⟨.mZVSVPRH, N, vinf, vsup, f1, f2, f3, f4⟩
        (Parameterizer.MMEAN ⟨.mZVSVPRH, N, vinf, vsup, f1, f2, f3, f4⟩)
        = ⟨((0 : ℚ) :: (List.map (fun t => -t) (List.take (N - 1) vinf))), (List.take N (List.drop (2 * N - 1) (List.zipWith (fun a b => (a + b) / 2) vinf vsup))), (List.take N (List.drop (N - 1) (List.zipWith (fun a b => (a + b) / 2) vinf vsup))), (List.take N (List.drop (3 * N - 1) (List.zipWith (fun a b => (a + b) / 2) vinf vsup)))⟩ := by
      simp only [Parameterizer.MMEAN, Parameterizer.inv, Parameterizer.MDEFAULT,
        Parameterizer.IDXNOTLOCK]
      rw [hMmean, mid_take_eq vinf vsup (N - 1) hz]
    have hBrec : Parameterizer.boundaries ⟨.mZVSVPRH, N, vinf, vsup, f1, f2, f3, f4⟩
        = ([], ⟨((0 : ℚ) :: (List.map (fun t => -t) (List.take (N - 1) vinf))), (List.take N (List.drop (2 * N - 1) vinf)), (List.take N (List.drop (2 * N - 1) vsup)), (List.take N (List.drop (N - 1) vinf)), (List.take N (List.drop (N - 1) vsup)), (List.take N (List.drop (3 * N - 1) vinf)), (List.take N (List.drop (3 * N - 1) vsup)),
            List.zipWith (fun a b => a / b) (List.take N (List.drop (2 * N - 1) vsup)) (List.take N (List.drop (N - 1) vinf)),
            List.zipWith (fun a b => a / b) (List.take N (List.drop (2 * N - 1) vinf)) (List.take N (List.drop (N - 1) vsup))⟩) := by
      simp only [Parameterizer.boundaries, Parameterizer.boundariesDefault]
      rw [einva, einvb]
      simp only [← hz]
      rw [sortedUnique_self _ hsort]
      rw [(envid _ (hslicelen vinf rfl _ (by omega))).1,
        (envid _ (hslicelen vsup hvsl _ (by omega))).2,
        (envid _ (hslicelen vinf rfl _ (by omega))).1,
        (envid _ (hslicelen vsup hvsl _ (by omega))).2,
        (envid _ (hslicelen vinf rfl _ (by omega))).1,
        (envid _ (hslicelen vsup hvsl _ (by omega))).2]
    rw [hBrec, einvm]
    refine ⟨⟨?_, ?_⟩, ⟨?_, ?_⟩, ⟨?_, ?_⟩, ?_, fun _ => ⟨?_, ?_⟩⟩
    · exact stairsVal_le _ _ _ x (hsl (N - 1))
    · exact stairsVal_le _ _ _ x (hsu (N - 1))
    · exact stairsVal_le _ _ _ x (hsl (2 * N - 1))
    · exact stairsVal_le _ _ _ x (hsu (2 * N - 1))
    · exact stairsVal_le _ _ _ x (hsl (3 * N - 1))
    · exact stairsVal_le _ _ _ x (hsu (3 * N - 1))
    · intro hco
      simp at hco
    · exact stairsVal_le _ _ _ x
        (forall₂_zipWith_div_le _ _ _ _ (hsl (2 * N - 1)) (hsu (N - 1))
          (fun v hv => le_of_lt (hposP2m v hv)) hposVSm)
    · exact stairsVal_le _ _ _ x
        (forall₂_zipWith_div_le _ _ _ _ (hsu (2 * N - 1)) (hsl (N - 1))
          (fun v hv => le_of_lt (hposP2sup v hv)) hposVSinf)

/-- C5 counterexample: variant mZVSVPRH, NLAYER = 1, rows VS0 in [1, 2],
VP0 in [2, 4], RH0 locked at 2.  The generic boundaries algorithm sets
PRlow = VPhigh/VSlow = 4 and PRhigh = VPlow/VShigh = 1, while the mean
model has Vp/Vs = 3 / 1.5 = 2: the claimed inequality
PRlow <= PRmean fails (4 <= 2 is false). -/
theorem boundaries_pr_envelope_reversed :
    ¬ (stairsVal (Parameterizer.boundaries ⟨.mZVSVPRH, 1, [1, 2, 2], [2, 4, 2], id, id, id, id⟩).2.z
         (Parameterizer.boundaries ⟨.mZVSVPRH, 1, [1, 2, 2], [2, 4, 2], id, id, id, id⟩).2.prlow 0
       ≤ stairsVal
           (Parameterizer.inv ⟨.mZVSVPRH, 1, [1, 2, 2], [2, 4, 2], id, id, id, id⟩ (Parameterizer.MMEAN ⟨.mZVSVPRH, 1, [1, 2, 2], [2, 4, 2], id, id, id, id⟩)).ZTOP
           (List.zipWith (fun a b => a / b)
             (Parameterizer.inv ⟨.mZVSVPRH, 1, [1, 2, 2], [2, 4, 2], id, id, id, id⟩ (Parameterizer.MMEAN ⟨.mZVSVPRH, 1, [1, 2, 2], [2, 4, 2], id, id, id, id⟩)).VP
             (Parameterizer.inv ⟨.mZVSVPRH, 1, [1, 2, 2], [2, 4, 2], id, id, id, id⟩ (Parameterizer.MMEAN ⟨.mZVSVPRH, 1, [1, 2, 2], [2, 4, 2], id, id, id, id⟩)).VS) 0) := by
  with_unfolding_all decide

/-- C5 witness: the amended bracketing applied to a concrete variant
mZVSPRRH instance (NLAYER = 1 so all depth rows are locked; VS0 in
[1, 2], PR0 in [2, 4], RH0 locked at 2) at depth 0, which also
instantiates the claimed-direction ratio bracketing PRlow <= PRmean <=
PRhigh. -/
theorem boundaries_bracket_witness :
    ((stairsVal (Parameterizer.boundaries ⟨.mZVSPRRH, 1, [1, 2, 2], [2, 4, 2], id, id, id, id⟩).2.z
        (Parameterizer.boundaries ⟨.mZVSPRRH, 1, [1, 2, 2], [2, 4, 2], id, id, id, id⟩).2.vslow 0
      ≤ stairsVal (Parameterizer.inv ⟨.mZVSPRRH, 1, [1, 2, 2], [2, 4, 2], id, id, id, id⟩ (Parameterizer.MMEAN ⟨.mZVSPRRH, 1, [1, 2, 2], [2, 4, 2], id, id, id, id⟩)).ZTOP
          (Parameterizer.inv ⟨.mZVSPRRH, 1, [1, 2, 2], [2, 4, 2], id, id, id, id⟩ (Parameterizer.MMEAN ⟨.mZVSPRRH, 1, [1, 2, 2], [2, 4, 2], id, id, id, id⟩)).VS 0
    ∧ stairsVal (Parameterizer.inv ⟨.mZVSPRRH, 1, [1, 2, 2], [2, 4, 2], id, id, id, id⟩ (Parameterizer.MMEAN ⟨.mZVSPRRH, 1, [1, 2, 2], [2, 4, 2], id, id, id, id⟩)).ZTOP
          (Parameterizer.inv ⟨.mZVSPRRH, 1, [1, 2, 2], [2, 4, 2], id, id, id, id⟩ (Parameterizer.MMEAN ⟨.mZVSPRRH, 1, [1, 2, 2], [2, 4, 2], id, id, id, id⟩)).VS 0
      ≤ stairsVal (Parameterizer.boundaries ⟨.mZVSPRRH, 1, [1, 2, 2], [2, 4, 2], id, id, id, id⟩).2.z
          (Parameterizer.boundaries ⟨.mZVSPRRH, 1, [1, 2, 2], [2, 4, 2], id, id, id, id⟩).2.vshgh 0)
  ∧ (stairsVal (Parameterizer.boundaries ⟨.mZVSPRRH, 1, [1, 2, 2], [2, 4, 2], id, id, id, id⟩).2.z
        (Parameterizer.boundaries ⟨.mZVSPRRH, 1, [1, 2, 2], [2, 4, 2], id, id, id, id⟩).2.vplow 0
      ≤ stairsVal (Parameterizer.inv ⟨.mZVSPRRH, 1, [1, 2, 2], [2, 4, 2], id, id, id, id⟩ (Parameterizer.MMEAN ⟨.mZVSPRRH, 1, [1, 2, 2], [2, 4, 2], id, id, id, id⟩)).ZTOP
          (Parameterizer.inv ⟨.mZVSPRRH, 1, [1, 2, 2], [2, 4, 2], id, id, id, id⟩ (Parameterizer.MMEAN ⟨.mZVSPRRH, 1, [1, 2, 2], [2, 4, 2], id, id, id, id⟩)).VP 0
    ∧ stairsVal (Parameterizer.inv ⟨.mZVSPRRH, 1, [1, 2, 2], [2, 4, 2], id, id, id, id⟩ (Parameterizer.MMEAN ⟨.mZVSPRRH, 1, [1, 2, 2], [2, 4, 2], id, id, id, id⟩)).ZTOP
          (Parameterizer.inv ⟨.mZVSPRRH, 1, [1, 2, 2], [2, 4, 2], id, id, id, id⟩ (Parameterizer.MMEAN ⟨.mZVSPRRH, 1, [1, 2, 2], [2, 4, 2], id, id, id, id⟩)).VP 0
      ≤ stairsVal (Parameterizer.boundaries ⟨.mZVSPRRH, 1, [1, 2, 2], [2, 4, 2], id, id, id, id⟩).2.z
          (Parameterizer.boundaries ⟨.mZVSPRRH, 1, [1, 2, 2], [2, 4, 2], id, id, id, id⟩).2.vphgh 0)
  ∧ (stairsVal (Parameterizer.boundaries ⟨.mZVSPRRH, 1, [1, 2, 2], [2, 4, 2], id, id, id, id⟩).2.z
        (Parameterizer.boundaries ⟨.mZVSPRRH, 1, [1, 2, 2], [2, 4, 2], id, id, id, id⟩).2.rhlow 0
      ≤ stairsVal (Parameterizer.inv ⟨.mZVSPRRH, 1, [1, 2, 2], [2, 4, 2], id, id, id, id⟩ (Parameterizer.MMEAN ⟨.mZVSPRRH, 1, [1, 2, 2], [2, 4, 2], id, id, id, id⟩)).ZTOP
          (Parameterizer.inv ⟨.mZVSPRRH, 1, [1, 2, 2], [2, 4, 2], id, id, id, id⟩ (Parameterizer.MMEAN ⟨.mZVSPRRH, 1, [1, 2, 2], [2, 4, 2], id, id, id, id⟩)).RH 0
    ∧ stairsVal (Parameterizer.inv ⟨.mZVSPRRH, 1, [1, 2, 2], [2, 4, 2], id, id, id, id⟩ (Parameterizer.MMEAN ⟨.mZVSPRRH, 1, [1, 2, 2], [2, 4, 2], id, id, id, id⟩)).ZTOP
          (Parameterizer.inv ⟨.mZVSPRRH, 1, [1, 2, 2], [2, 4, 2], id, id, id, id⟩ (Parameterizer.MMEAN ⟨.mZVSPRRH, 1, [1, 2, 2], [2, 4, 2], id, id, id, id⟩)).RH 0
      ≤ stairsVal (Parameterizer.boundaries ⟨.mZVSPRRH, 1, [1, 2, 2], [2, 4, 2], id, id, id, id⟩).2.z
          (Parameterizer.boundaries ⟨.mZVSPRRH, 1, [1, 2, 2], [2, 4, 2], id, id, id, id⟩).2.rhhgh 0)
  ∧ (Parameterizer.ptype ⟨.mZVSPRRH, 1, [1, 2, 2], [2, 4, 2], id, id, id, id⟩ = .mZVSPRRH →
      stairsVal (Parameterizer.boundaries ⟨.mZVSPRRH, 1, [1, 2, 2], [2, 4, 2], id, id, id, id⟩).2.z
          (Parameterizer.boundaries ⟨.mZVSPRRH, 1, [1, 2, 2], [2, 4, 2], id, id, id, id⟩).2.prlow 0
        ≤ stairsVal (Parameterizer.inv ⟨.mZVSPRRH, 1, [1, 2, 2], [2, 4, 2], id, id, id, id⟩ (Parameterizer.MMEAN ⟨.mZVSPRRH, 1, [1, 2, 2], [2, 4, 2], id, id, id, id⟩)).ZTOP
            (List.zipWith (fun a b => a / b)
              (Parameterizer.inv ⟨.mZVSPRRH, 1, [1, 2, 2], [2, 4, 2], id, id, id, id⟩ (Parameterizer.MMEAN ⟨.mZVSPRRH, 1, [1, 2, 2], [2, 4, 2], id, id, id, id⟩)).VP
              (Parameterizer.inv ⟨.mZVSPRRH, 1, [1, 2, 2], [2, 4, 2], id, id, id, id⟩ (Parameterizer.MMEAN ⟨.mZVSPRRH, 1, [1, 2, 2], [2, 4, 2], id, id, id, id⟩)).VS) 0
      ∧ stairsVal (Parameterizer.inv ⟨.mZVSPRRH, 1, [1, 2, 2], [2, 4, 2], id, id, id, id⟩ (Parameterizer.MMEAN ⟨.mZVSPRRH, 1, [1, 2, 2], [2, 4, 2], id, id, id, id⟩)).ZTOP
            (List.zipWith (fun a b => a / b)
              (Parameterizer.inv ⟨.mZVSPRRH, 1, [1, 2, 2], [2, 4, 2], id, id, id, id⟩ (Parameterizer.MMEAN ⟨.mZVSPRRH, 1, [1, 2, 2], [2, 4, 2], id, id, id, id⟩)).VP
              (Parameterizer.inv ⟨.mZVSPRRH, 1, [1, 2, 2], [2, 4, 2], id, id, id, id⟩ (Parameterizer.MMEAN ⟨.mZVSPRRH, 1, [1, 2, 2], [2, 4, 2], id, id, id, id⟩)).VS) 0
        ≤ stairsVal (Parameterizer.boundaries ⟨.mZVSPRRH, 1, [1, 2, 2], [2, 4, 2], id, id, id, id⟩).2.z
            (Parameterizer.boundaries ⟨.mZVSPRRH, 1, [1, 2, 2], [2, 4, 2], id, id, id, id⟩).2.prhgh 0)
  ∧ (Parameterizer.ptype ⟨.mZVSPRRH, 1, [1, 2, 2], [2, 4, 2], id, id, id, id⟩ = .mZVSVPRH →
      stairsVal (Parameterizer.boundaries ⟨.mZVSPRRH, 1, [1, 2, 2], [2, 4, 2], id, id, id, id⟩).2.z
          (Parameterizer.boundaries ⟨.mZVSPRRH, 1, [1, 2, 2], [2, 4, 2], id, id, id, id⟩).2.prhgh 0
        ≤ stairsVal (Parameterizer.inv ⟨.mZVSPRRH, 1, [1, 2, 2], [2, 4, 2], id, id, id, id⟩ (Parameterizer.MMEAN ⟨.mZVSPRRH, 1, [1, 2, 2], [2, 4, 2], id, id, id, id⟩)).ZTOP
            (List.zipWith (fun a b => a / b)
              (Parameterizer.inv ⟨.mZVSPRRH, 1, [1, 2, 2], [2, 4, 2], id, id, id, id⟩ (Parameterizer.MMEAN ⟨.mZVSPRRH, 1, [1, 2, 2], [2, 4, 2], id, id, id, id⟩)).VP
              (Parameterizer.inv ⟨.mZVSPRRH, 1, [1, 2, 2], [2, 4, 2], id, id, id, id⟩ (Parameterizer.MMEAN ⟨.mZVSPRRH, 1, [1, 2, 2], [2, 4, 2], id, id, id, id⟩)).VS) 0
      ∧ stairsVal (Parameterizer.inv ⟨.mZVSPRRH, 1, [1, 2, 2], [2, 4, 2], id, id, id, id⟩ (Parameterizer.MMEAN ⟨.mZVSPRRH, 1, [1, 2, 2], [2, 4, 2], id, id, id, id⟩)).ZTOP
            (List.zipWith (fun a b => a / b)
              (Parameterizer.inv ⟨.mZVSPRRH, 1, [1, 2, 2], [2, 4, 2], id, id, id, id⟩ (Parameterizer.MMEAN ⟨.mZVSPRRH, 1, [1, 2, 2], [2, 4, 2], id, id, id, id⟩)).VP
              (Parameterizer.inv ⟨.mZVSPRRH, 1, [1, 2, 2], [2, 4, 2], id, id, id, id⟩ (Parameterizer.MMEAN ⟨.mZVSPRRH, 1, [1, 2, 2], [2, 4, 2], id, id, id, id⟩)).VS) 0
        ≤ stairsVal (Parameterizer.boundaries ⟨.mZVSPRRH, 1, [1, 2, 2], [2, 4, 2], id, id, id, id⟩).2.z
            (Parameterizer.boundaries ⟨.mZVSPRRH, 1, [1, 2, 2], [2, 4, 2], id, id, id, id⟩).2.prlow 0)) :=
  boundaries_bracket_mean_locked_depths ⟨.mZVSPRRH, 1, [1, 2, 2], [2, 4, 2], id, id, id, id⟩ 0 (Or.inl rfl)
    (by decide) (by with_unfolding_all decide) (by with_unfolding_all decide)
    (by simp [List.forall₂_cons]; norm_num)
    (by with_unfolding_all decide) (by simp)
    (by with_unfolding_all decide)

end Srf
